import Mathlib

/-!
# Verification of the appointment-slot and booking engine

Shallow embedding of the scheduling/booking core of the care-path
application: slot derivation (`loadAvailability`), conflict-checked
booking creation (`catchFallback`, `createBookingEdge`), schedule
persistence (`saveScheduleRows`, `saveSchedule`), the two-channel remote
invocation pattern (`createPhase`, `payPhase`, `handleBookingFlow`) and
the status-transition operations (`cancelFromHistory`, `approveBooking`,
`rejectBooking`).  Clock times are `HH:MM` strings, dates are
`YYYY-MM-DD` strings, money is in integer minor units (cents).

JavaScript string primitives (`split`, `Number`, code-unit comparison as
used by `Array.prototype.sort` / `localeCompare` on ASCII strings) are
embedded as structurally recursive functions on `List Char` so that all
definitions kernel-evaluate on concrete inputs.
-/

set_option maxRecDepth 8000

namespace CarePath

/-- A persisted weekly availability window (`doctor_schedules` row). -/
structure ScheduleRow where
  doctor_id : String
  day_of_week : Nat
  start_time : String
  end_time : String
  is_available : Bool
deriving DecidableEq

/-- A `bookings` row. -/
structure BookingRow where
  id : String
  user_id : String
  doctor_id : String
  appointment_date : String
  appointment_time : String
  status : String
  payment_status : String
  consultation_fee : Nat
  booking_fee : Nat
  total_amount : Nat
  patient_notes : String
  updated_at : String
deriving DecidableEq

/-- A `memberships` row; `free_bookings_remaining` is a nullable integer. -/
structure MembershipRow where
  user_id : String
  membership_type : String
  is_active : Bool
  free_bookings_remaining : Option Int
  updated_at : String
deriving DecidableEq

/-- An ephemeral derived slot (`TimeSlot` in BookAppointment.tsx). -/
structure TimeSlot where
  time : String
  available : Bool
deriving DecidableEq

/-! ## JavaScript string primitives -/

/-- JS `s.split(sep)` for a one-character separator, on char lists. -/
def splitOnChar (sep : Char) : List Char → List (List Char)
  | [] => [[]]
  | c :: cs =>
    if c = sep then [] :: splitOnChar sep cs
    else
      match splitOnChar sep cs with
      | [] => [[c]]
      | p :: ps => (c :: p) :: ps

/-- JS `Number(s)` restricted to the digit strings that occur in clock
times; `Number('') = 0` in JS, and non-digit inputs (which would give
`NaN`) are mapped to `0`, outside the modelled input range. -/
def parseDigits (cs : List Char) : Nat :=
  if cs.all (·.isDigit) then cs.foldl (fun n c => n * 10 + (c.toNat - '0'.toNat)) 0
  else 0

/-- JS code-unit lexicographic `<` on strings (char lists), as used by
`Array.prototype.sort()` default and `localeCompare` on ASCII data. -/
def lexLtB : List Char → List Char → Bool
  | [], [] => false
  | [], _ :: _ => true
  | _ :: _, [] => false
  | a :: as, b :: bs => if a < b then true else if b < a then false else lexLtB as bs

/-- JS `a < b` on strings. -/
def strLtB (a b : String) : Bool := lexLtB a.data b.data

/-- JS `a <= b` on strings. -/
def strLeB (a b : String) : Bool := !(strLtB b a)

/-- The propositional form of `strLtB`. -/
def strLt (a b : String) : Prop := strLtB a b = true

/-- The propositional form of `strLeB`. -/
def strLe (a b : String) : Prop := strLeB a b = true

instance : DecidableRel strLt := fun a b => inferInstanceAs (Decidable (_ = true))

instance : DecidableRel strLe := fun a b => inferInstanceAs (Decidable (_ = true))

/-! ## Clock-time helpers from the source -/

/-- `s.padStart(2, '0')` from the schedule/booking pages. -/
def padStart2 (s : String) : String :=
  if s.length < 2 then "0" ++ s else s

/-- `toHHMM` from BookAppointment.tsx / the doctor schedule page:
minutes-after-midnight to a zero-padded `HH:MM` string. -/
def toHHMM (mins : Nat) : String :=
  padStart2 (toString (mins / 60)) ++ ":" ++ padStart2 (toString (mins % 60))

/-- `toMinutes` from BookAppointment.tsx / the doctor schedule page:
`const [h, m] = t.split(':').map(Number); return h*60+m;`.  The JS
destructuring keeps the first two `:`-separated fields. -/
def toMinutes (t : String) : Nat :=
  match splitOnChar ':' t.data with
  | h :: m :: _ => parseDigits h * 60 + parseDigits m
  | _ => 0

/-- The slot-generation loop `for (let m = start; m < end; m += 30)`,
with explicit fuel (`stop - start` steps always suffice) so that the
function is structurally recursive. -/
def slotTimesFuel : Nat → Nat → Nat → List Nat
  | 0, _, _ => []
  | fuel + 1, start, stop =>
    if start < stop then start :: slotTimesFuel fuel (start + 30) stop else []

/-- The clock times generated for one schedule window. -/
def slotTimes (start stop : Nat) : List Nat :=
  slotTimesFuel (stop - start) start stop

/-! ## Slot derivation (`loadAvailability` in BookAppointment.tsx) -/

/-- The `doctor_schedules` query: rows for the doctor and weekday with
`is_available = true`. -/
def windowsFor (schedules : List ScheduleRow) (doctorId : String) (dayOfWeek : Nat) :
    List ScheduleRow :=
  schedules.filter fun s =>
    s.doctor_id == doctorId && s.day_of_week == dayOfWeek && s.is_available

/-- The `bookings` query feeding the taken-set: `appointment_time` of
non-cancelled bookings for the doctor and date. -/
def takenTimesFor (bookings : List BookingRow) (doctorId date : String) : List String :=
  (bookings.filter fun b =>
    b.doctor_id == doctorId && b.appointment_date == date && b.status != "cancelled").map
    (·.appointment_time)

/-- The per-window slot generation: each time gets
`available = !takenTimes.has(t)`. -/
def genSlots (windows : List ScheduleRow) (takenTimes : List String) : List TimeSlot :=
  windows.flatMap fun s =>
    (slotTimes (toMinutes s.start_time) (toMinutes s.end_time)).map fun m =>
      { time := toHHMM m, available := !takenTimes.contains (toHHMM m) }

/-- The sort comparator `(a, b) => a.time.localeCompare(b.time)`. -/
def slotLe (a b : TimeSlot) : Prop := strLeB a.time b.time = true

instance : DecidableRel slotLe := fun a b => inferInstanceAs (Decidable (_ = true))

/-- One step of the JS `Map.set` used for deduplication: an existing key
keeps its position and gets the new value, a new key is appended. -/
def mapInsert (acc : List TimeSlot) (s : TimeSlot) : List TimeSlot :=
  if acc.any (fun x => x.time == s.time) then
    acc.map (fun x => if x.time == s.time then s else x)
  else acc ++ [s]

/-- `slots.sort(...).forEach(s => unique.set(s.time, s))` followed by
`Array.from(unique.values())`: last write wins, first-insertion order. -/
def dedupLastWins (l : List TimeSlot) : List TimeSlot :=
  l.foldl mapInsert []

/-- `loadAvailability` from BookAppointment.tsx as a pure function of the
two queried tables: generate 30-minute slots for every available window
of the weekday, mark taken times, sort by time, deduplicate. -/
def loadAvailability (schedules : List ScheduleRow) (bookings : List BookingRow)
    (doctorId date : String) (dayOfWeek : Nat) : List TimeSlot :=
  dedupLastWins
    (List.insertionSort slotLe
      (genSlots (windowsFor schedules doctorId dayOfWeek) (takenTimesFor bookings doctorId date)))

/-! ## Booking creation (`handleBooking` in BookAppointment.tsx) -/

/-- The write-time conflict query of the direct-creation fallback:
active (`status != 'cancelled'`) bookings for `(doctorId, date, time)`. -/
def activeConflicts (db : List BookingRow) (doctorId date time : String) : List BookingRow :=
  db.filter fun b =>
    b.doctor_id == doctorId && b.appointment_date == date &&
      b.appointment_time == time && b.status != "cancelled"

/-- The fee computation: `booking_fee = 1000` cents unless the membership
is premium with free bookings remaining (`membership?.membership_type ===
'premium' && (membership.free_bookings_remaining ?? 0) > 0`), in which
case the fee is `0` and the free credit must be decremented.  Returns
`(booking_fee, shouldDecrement)`. -/
def computeBookingFee (membership : Option MembershipRow) : Nat × Bool :=
  if membership.map (·.membership_type) = some "premium" ∧
      0 < (membership.bind (·.free_bookings_remaining)).getD 0 then (0, true)
  else (1000, false)

/-- Outcome of one run of the booking flow, as surfaced to the user. -/
inductive Outcome where
  | redirected (url : String)
  | slotUnavailable
  | bookingCreated (b : BookingRow)
  | bookingFailed
deriving DecidableEq

/-- The final fallback of `handleBooking` (the `catch` block): re-check the
slot, compute the membership-aware fee, insert the booking directly with
`status = pending`, `payment_status = pending`, `total_amount = booking_fee`,
and decrement the free credit when one was consumed. -/
def catchFallback (db : List BookingRow) (memberships : List MembershipRow)
    (userId doctorId date time notes paymentMethod : String) (consultationFee : Nat)
    (newId nowIso : String) : Outcome × List BookingRow × List MembershipRow :=
  if (activeConflicts db doctorId date time).length > 0 then
    (.slotUnavailable, db, memberships)
  else
    let membership := memberships.find? fun m => m.user_id == userId
    let fee := computeBookingFee membership
    let newBooking : BookingRow :=
      { id := newId
        user_id := userId
        doctor_id := doctorId
        appointment_date := date
        appointment_time := time
        status := "pending"
        payment_status := "pending"
        consultation_fee := consultationFee
        booking_fee := fee.1
        total_amount := fee.1
        patient_notes := notes ++ "\nPayment method: " ++ paymentMethod.replace "_" " "
        updated_at := nowIso }
    let memberships' :=
      if fee.2 then
        memberships.map fun m =>
          if m.user_id == userId then
            { m with
              free_bookings_remaining :=
                some (((membership.bind (·.free_bookings_remaining)).getD 0) - 1)
              updated_at := nowIso }
          else m
      else memberships
    (.bookingCreated newBooking, db ++ [newBooking], memberships')

/-- Modelled from the spec: the `create-booking` edge function, whose body
is not part of this repository snapshot (only its invocations are).  Per
spec §4.3 it re-checks active bookings for `(doctorId, date, time)` at
write time, fails with `SlotUnavailable` when one exists, and otherwise
inserts a booking in `pending`/`pending` state. -/
def createBookingEdge (db : List BookingRow) (userId doctorId date time notes : String)
    (consultationFee : Nat) (newId nowIso : String) : Option BookingRow × List BookingRow :=
  if (activeConflicts db doctorId date time).length > 0 then (none, db)
  else
    let b : BookingRow :=
      { id := newId
        user_id := userId
        doctor_id := doctorId
        appointment_date := date
        appointment_time := time
        status := "pending"
        payment_status := "pending"
        consultation_fee := consultationFee
        booking_fee := 1000
        total_amount := 1000
        patient_notes := notes
        updated_at := nowIso }
    (some b, db ++ [b])

/-! ## The two-channel invocation pattern -/

/-- The two channels used for each remote operation. -/
inductive Channel where
  | primaryInvoke
  | secondaryHttp
deriving DecidableEq

/-- Result of one create-booking channel attempt: a booking, a
business-logic rejection (HTTP response delivered, `success: false` or no
booking in the payload), or a transport failure. -/
inductive CreateChanRes where
  | ok (b : BookingRow)
  | bizReject
  | transportFail
deriving DecidableEq

/-- Result of one create-payfast-payment channel attempt. -/
inductive PayChanRes where
  | ok (url : String)
  | fail
deriving DecidableEq

/-- The create-booking phase of `handleBooking`: invoke the primary
channel; only if it produced no booking, invoke the secondary direct HTTP
channel.  Returns the channels attempted (in order) and the booking. -/
def createPhase (primary secondary : CreateChanRes) : List Channel × Option BookingRow :=
  match primary with
  | .ok b => ([.primaryInvoke], some b)
  | _ =>
    match secondary with
    | .ok b => ([.primaryInvoke, .secondaryHttp], some b)
    | _ => ([.primaryInvoke, .secondaryHttp], none)

/-- The create-payfast-payment phase of `handleBooking`: same shape. -/
def payPhase (primary secondary : PayChanRes) : List Channel × Option String :=
  match primary with
  | .ok url => ([.primaryInvoke], some url)
  | _ =>
    match secondary with
    | .ok url => ([.primaryInvoke, .secondaryHttp], some url)
    | _ => ([.primaryInvoke, .secondaryHttp], none)

/-- The whole `handleBooking` orchestration.  A successful create-booking
channel has durably inserted the returned booking (spec §4.3c).  If no
booking was obtained, or payment initiation failed on both channels, the
`catch` block runs the direct-creation fallback `catchFallback`. -/
def handleBookingFlow (db : List BookingRow) (memberships : List MembershipRow)
    (cPrimary cSecondary : CreateChanRes) (pPrimary pSecondary : PayChanRes)
    (userId doctorId date time notes paymentMethod : String) (consultationFee : Nat)
    (newId nowIso : String) : Outcome × List BookingRow × List MembershipRow :=
  match (createPhase cPrimary cSecondary).2 with
  | none =>
    catchFallback db memberships userId doctorId date time notes paymentMethod
      consultationFee newId nowIso
  | some b =>
    let db1 := db ++ [b]
    match (payPhase pPrimary pSecondary).2 with
    | some url => (.redirected url, db1, memberships)
    | none =>
      catchFallback db1 memberships userId doctorId date time notes paymentMethod
        consultationFee newId nowIso

/-! ## Schedule persistence (`saveSchedule` in the doctor dashboard) -/

/-- The per-weekday UI state: an open/close range and the set of selected
half-hour start times (a JS `Set`, modelled as its insertion-ordered
element list). -/
structure DayState where
  openTime : String
  closeTime : String
  selected : List String
deriving DecidableEq

/-- One iteration of the `saveSchedule` loop: sort the selected times
(JS default sort = code-unit order `strLe`), take `start = first`,
`end = last + 30min`, and keep the row only when
`toMinutes(end) > toMinutes(start)`. -/
def dayRows (doctorId : String) (d : Nat) (state : DayState) : List ScheduleRow :=
  match List.insertionSort strLe state.selected with
  | [] => []
  | t :: ts =>
    let endLast := (t :: ts).getLast (List.cons_ne_nil t ts)
    let endT := toHHMM (toMinutes endLast + 30)
    if toMinutes endT > toMinutes t then
      [{ doctor_id := doctorId
         day_of_week := d
         start_time := t
         end_time := endT
         is_available := true }]
    else []

/-- The rows computed by `saveSchedule` for weekdays `0..6`; a weekday
with no state or an empty selection contributes nothing. -/
def saveScheduleRows (doctorId : String) (dayStates : Nat → Option DayState) :
    List ScheduleRow :=
  (List.range 7).flatMap fun d =>
    match dayStates d with
    | none => []
    | some state => dayRows doctorId d state

/-- One row of the `upsert(rows, { onConflict: 'doctor_id,day_of_week' })`:
replace the row with the same key in place, otherwise append. -/
def upsertRow (store : List ScheduleRow) (r : ScheduleRow) : List ScheduleRow :=
  if store.any (fun x => x.doctor_id == r.doctor_id && x.day_of_week == r.day_of_week) then
    store.map fun x =>
      if x.doctor_id == r.doctor_id && x.day_of_week == r.day_of_week then r else x
  else store ++ [r]

/-- `saveSchedule`'s write path against the whole `doctor_schedules`
table: delete every row of the doctor, then upsert the computed rows. -/
def saveSchedule (store : List ScheduleRow) (doctorId : String)
    (dayStates : Nat → Option DayState) : List ScheduleRow :=
  (saveScheduleRows doctorId dayStates).foldl upsertRow
    (store.filter fun x => !(x.doctor_id == doctorId))

/-! ## Status transitions (BookingHistory.tsx and the doctor dashboard) -/

/-- `cancelBooking` from BookingHistory.tsx: set `status = 'cancelled'` on
the row with the given id (and nothing else). -/
def cancelBookingUpdate (db : List BookingRow) (bookingId : String) : List BookingRow :=
  db.map fun b => if b.id == bookingId then { b with status := "cancelled" } else b

/-- The patient cancellation operation as reachable from the UI: the
Cancel button is rendered only when `status === 'pending'` and
`new Date(appointment_date) > new Date()` (modelled by the environment
predicate `isFuture`). -/
def cancelFromHistory (db : List BookingRow) (memberships : List MembershipRow)
    (bookingId : String) (isFuture : String → Bool) :
    List BookingRow × List MembershipRow :=
  match db.find? (fun b => b.id == bookingId) with
  | some b =>
    if b.status == "pending" && isFuture b.appointment_date then
      (cancelBookingUpdate db bookingId, memberships)
    else (db, memberships)
  | none => (db, memberships)

/-- `approveBooking` from the doctor dashboard: set `status = 'confirmed'`
and `updated_at` on the booking with the given id, scoped to the acting
doctor and to `status = 'pending'`. -/
def approveBooking (db : List BookingRow) (doctorId bookingId nowIso : String) :
    List BookingRow :=
  db.map fun b =>
    if b.id == bookingId && b.doctor_id == doctorId && b.status == "pending" then
      { b with status := "confirmed", updated_at := nowIso }
    else b

/-- `rejectBooking` from the doctor dashboard: same scope, but
`status = 'cancelled'`. -/
def rejectBooking (db : List BookingRow) (doctorId bookingId nowIso : String) :
    List BookingRow :=
  db.map fun b =>
    if b.id == bookingId && b.doctor_id == doctorId && b.status == "pending" then
      { b with status := "cancelled", updated_at := nowIso }
    else b

/-! ## Concrete fixtures used to evaluate the operations -/

/-- A doctor open Monday 08:00–10:00. -/
def demoSchedules : List ScheduleRow :=
  [{ doctor_id := "d1", day_of_week := 1, start_time := "08:00", end_time := "10:00",
     is_available := true }]

/-- A pending booking recorded with a seconds suffix on the time. -/
def demoBookingsSecs : List BookingRow :=
  [{ id := "b1", user_id := "u1", doctor_id := "d1", appointment_date := "2026-10-20",
     appointment_time := "09:00:00", status := "pending", payment_status := "pending",
     consultation_fee := 100, booking_fee := 1000, total_amount := 1000,
     patient_notes := "", updated_at := "t0" }]

/-- The same pending booking recorded as plain `HH:MM`. -/
def demoBookings : List BookingRow :=
  [{ id := "b1", user_id := "u1", doctor_id := "d1", appointment_date := "2026-10-20",
     appointment_time := "09:00", status := "pending", payment_status := "pending",
     consultation_fee := 100, booking_fee := 1000, total_amount := 1000,
     patient_notes := "", updated_at := "t0" }]

/-- A weekly selection: Monday with the half-hours 08:00–09:30 selected
(in JS `Set` insertion order), all other days closed. -/
def demoDayStates : Nat → Option DayState := fun d =>
  if d = 1 then
    some { openTime := "08:00", closeTime := "17:00",
           selected := ["08:30", "08:00", "09:30", "09:00"] }
  else none

/-! ## Properties of the JS string order -/

theorem lexLtB_cons_cons (a b : Char) (as bs : List Char) :
    lexLtB (a :: as) (b :: bs) =
      if a < b then true else if b < a then false else lexLtB as bs := rfl

theorem lexLtB_irrefl : ∀ as : List Char, lexLtB as as = false
  | [] => rfl
  | a :: as => by
    rw [lexLtB_cons_cons, if_neg (lt_irrefl a), if_neg (lt_irrefl a)]
    exact lexLtB_irrefl as

theorem lexLtB_asymm : ∀ as bs : List Char, lexLtB as bs = true → lexLtB bs as = false
  | [], [], h => Bool.noConfusion h
  | [], _ :: _, _ => rfl
  | _ :: _, [], h => Bool.noConfusion h
  | a :: as, b :: bs, h => by
    rcases lt_trichotomy a b with h1 | h1 | h1
    · rw [lexLtB_cons_cons, if_neg (asymm h1), if_pos h1]
    · subst h1
      rw [lexLtB_cons_cons, if_neg (lt_irrefl a), if_neg (lt_irrefl a)] at h ⊢
      exact lexLtB_asymm as bs h
    · rw [lexLtB_cons_cons, if_neg (asymm h1), if_pos h1] at h
      exact Bool.noConfusion h

theorem lexLtB_trans :
    ∀ as bs cs : List Char, lexLtB as bs = true → lexLtB bs cs = true → lexLtB as cs = true
  | [], [], _, hab, _ => Bool.noConfusion hab
  | _ :: _, [], _, hab, _ => Bool.noConfusion hab
  | _, _ :: _, [], _, hbc => Bool.noConfusion hbc
  | [], _ :: _, _ :: _, _, _ => rfl
  | a :: as, b :: bs, c :: cs, hab, hbc => by
    rcases lt_trichotomy a b with h1 | h1 | h1
    · rcases lt_trichotomy b c with h2 | h2 | h2
      · rw [lexLtB_cons_cons, if_pos (lt_trans h1 h2)]
      · subst h2; rw [lexLtB_cons_cons, if_pos h1]
      · rw [lexLtB_cons_cons, if_neg (asymm h2), if_pos h2] at hbc
        exact Bool.noConfusion hbc
    · subst h1
      rcases lt_trichotomy a c with h2 | h2 | h2
      · rw [lexLtB_cons_cons, if_pos h2]
      · subst h2
        rw [lexLtB_cons_cons, if_neg (lt_irrefl a), if_neg (lt_irrefl a)] at hab hbc ⊢
        exact lexLtB_trans as bs cs hab hbc
      · rw [lexLtB_cons_cons, if_neg (asymm h2), if_pos h2] at hbc
        exact Bool.noConfusion hbc
    · rw [lexLtB_cons_cons, if_neg (asymm h1), if_pos h1] at hab
      exact Bool.noConfusion hab

theorem lexLtB_conn :
    ∀ as bs : List Char, lexLtB as bs = false → lexLtB bs as = false → as = bs
  | [], [], _, _ => rfl
  | [], _ :: _, h, _ => Bool.noConfusion h
  | _ :: _, [], _, h => Bool.noConfusion h
  | a :: as, b :: bs, h1, h2 => by
    rcases lt_trichotomy a b with h | h | h
    · rw [lexLtB_cons_cons, if_pos h] at h1
      exact Bool.noConfusion h1
    · subst h
      rw [lexLtB_cons_cons, if_neg (lt_irrefl a), if_neg (lt_irrefl a)] at h1 h2
      rw [lexLtB_conn as bs h1 h2]
    · rw [lexLtB_cons_cons, if_pos h] at h2
      exact Bool.noConfusion h2

theorem strLe_total : ∀ a b : String, strLe a b ∨ strLe b a := by
  intro a b
  cases h : lexLtB b.data a.data with
  | false => exact Or.inl (by simp [strLe, strLeB, strLtB, h])
  | true => exact Or.inr (by simp [strLe, strLeB, strLtB, lexLtB_asymm _ _ h])

theorem strLe_trans' : ∀ a b c : String, strLe a b → strLe b c → strLe a c := by
  intro a b c hab hbc
  simp only [strLe, strLeB, strLtB, Bool.not_eq_true'] at hab hbc ⊢
  cases hca : lexLtB c.data a.data with
  | false => rfl
  | true =>
    cases hbc' : lexLtB b.data c.data with
    | true => exact absurd (lexLtB_trans _ _ _ hbc' hca) (by simp [hab])
    | false =>
      have hbceq : b.data = c.data := lexLtB_conn _ _ hbc' hbc
      rw [← hbceq] at hca
      rw [hca] at hab
      exact hab

theorem strLe_antisymm : ∀ a b : String, strLe a b → strLe b a → a = b := by
  intro a b hab hba
  simp only [strLe, strLeB, strLtB, Bool.not_eq_true'] at hab hba
  have : a.data = b.data := lexLtB_conn _ _ hba hab
  cases a; cases b; exact congrArg String.mk this

theorem strLt_of_strLe_of_ne {a b : String} (h : strLe a b) (hne : a ≠ b) : strLt a b := by
  simp only [strLe, strLeB, strLtB, Bool.not_eq_true'] at h
  simp only [strLt, strLtB]
  cases h' : lexLtB a.data b.data with
  | true => rfl
  | false =>
    exact absurd (by
      have : a.data = b.data := lexLtB_conn _ _ h' h
      cases a; cases b; exact congrArg String.mk this) hne

theorem strLe_of_strLt {a b : String} (h : strLt a b) : strLe a b := by
  simp only [strLt, strLtB] at h
  simp [strLe, strLeB, strLtB, lexLtB_asymm _ _ h]

theorem strLt_irrefl (a : String) : ¬ strLt a a := by
  simp [strLt, strLtB, lexLtB_irrefl]

instance : IsTotal TimeSlot slotLe := ⟨fun a b => strLe_total a.time b.time⟩

instance : IsTrans TimeSlot slotLe := ⟨fun a b c => strLe_trans' a.time b.time c.time⟩

instance : IsTotal String strLe := ⟨strLe_total⟩

instance : IsTrans String strLe := ⟨strLe_trans'⟩

theorem strLt_trans {a b c : String} (hab : strLt a b) (hbc : strLt b c) : strLt a c :=
  lexLtB_trans _ _ _ hab hbc

theorem strLe_iff_not_strLt {a b : String} : strLe a b ↔ ¬ strLt b a := by
  simp [strLe, strLeB, strLt, strLtB]

theorem strLe_refl (a : String) : strLe a a := by
  simp [strLe, strLeB, strLtB, lexLtB_irrefl]

/-! ## `toHHMM` respects the clock-time order (bounded checks in chunks) -/

theorem ball_chunk {P : Nat → Prop} {a b : Nat} (h1 : ∀ m, m < a → P m)
    (h2 : ∀ i, i < b → P (a + i)) : ∀ m, m < a + b → P m := by
  intro m hm
  by_cases h : m < a
  · exact h1 m h
  · have hp := h2 (m - a) (by omega)
    have heq : a + (m - a) = m := by omega
    rwa [heq] at hp

theorem hhmm_step_c0 : ∀ m, m < 245 → strLtB (toHHMM m) (toHHMM (m + 1)) = true := by decide

theorem hhmm_step_c1 : ∀ i, i < 245 → strLtB (toHHMM (245 + i)) (toHHMM (245 + i + 1)) = true := by
  decide

theorem hhmm_step_c2 : ∀ i, i < 245 → strLtB (toHHMM (490 + i)) (toHHMM (490 + i + 1)) = true := by
  decide

theorem hhmm_step_c3 : ∀ i, i < 245 → strLtB (toHHMM (735 + i)) (toHHMM (735 + i + 1)) = true := by
  decide

theorem hhmm_step_c4 : ∀ i, i < 245 → strLtB (toHHMM (980 + i)) (toHHMM (980 + i + 1)) = true := by
  decide

theorem hhmm_step_c5 : ∀ i, i < 245 → strLtB (toHHMM (1225 + i)) (toHHMM (1225 + i + 1)) = true := by
  decide

theorem toHHMM_step : ∀ m, m < 1470 → strLt (toHHMM m) (toHHMM (m + 1)) :=
  ball_chunk (ball_chunk (ball_chunk (ball_chunk (ball_chunk hhmm_step_c0 hhmm_step_c1)
    hhmm_step_c2) hhmm_step_c3) hhmm_step_c4) hhmm_step_c5

theorem hhmm_rt_c0 : ∀ m, m < 245 → toMinutes (toHHMM m) = m := by decide

theorem hhmm_rt_c1 : ∀ i, i < 245 → toMinutes (toHHMM (245 + i)) = 245 + i := by decide

theorem hhmm_rt_c2 : ∀ i, i < 245 → toMinutes (toHHMM (490 + i)) = 490 + i := by decide

theorem hhmm_rt_c3 : ∀ i, i < 245 → toMinutes (toHHMM (735 + i)) = 735 + i := by decide

theorem hhmm_rt_c4 : ∀ i, i < 245 → toMinutes (toHHMM (980 + i)) = 980 + i := by decide

theorem hhmm_rt_c5 : ∀ i, i < 245 → toMinutes (toHHMM (1225 + i)) = 1225 + i := by decide

/-- `toMinutes` parses back what `toHHMM` prints, for clock values. -/
theorem toMinutes_toHHMM : ∀ m, m < 1470 → toMinutes (toHHMM m) = m :=
  ball_chunk (ball_chunk (ball_chunk (ball_chunk (ball_chunk hhmm_rt_c0 hhmm_rt_c1)
    hhmm_rt_c2) hhmm_rt_c3) hhmm_rt_c4) hhmm_rt_c5

/-- `toHHMM` is strictly monotone in the JS string order, on clock values. -/
theorem toHHMM_strictMono : ∀ {b : Nat}, b ≤ 1470 → ∀ {a : Nat}, a < b →
    strLt (toHHMM a) (toHHMM b) := by
  intro b
  induction b with
  | zero => intro _ a ha; omega
  | succ n ih =>
    intro hb a ha
    rcases Nat.lt_succ_iff_lt_or_eq.mp ha with h | h
    · exact strLt_trans (ih (by omega) h) (toHHMM_step n (by omega))
    · subst h; exact toHHMM_step a (by omega)

theorem toHHMM_le_iff {a b : Nat} (ha : a ≤ 1470) (hb : b ≤ 1470) :
    strLe (toHHMM a) (toHHMM b) ↔ a ≤ b := by
  constructor
  · intro h
    by_contra hab
    exact (strLe_iff_not_strLt.mp h) (toHHMM_strictMono ha (by omega))
  · intro h
    rcases Nat.lt_or_ge a b with h' | h'
    · exact strLe_of_strLt (toHHMM_strictMono hb h')
    · have : a = b := by omega
      subst this; exact strLe_refl _

/-! ## The slot-generation loop -/

theorem slotTimesFuel_congr : ∀ f₁ f₂ start stop : Nat, stop - start ≤ f₁ → stop - start ≤ f₂ →
    slotTimesFuel f₁ start stop = slotTimesFuel f₂ start stop := by
  intro f₁
  induction f₁ with
  | zero =>
    intro f₂ start stop h₁ _
    cases f₂ with
    | zero => rfl
    | succ n => simp only [slotTimesFuel]; rw [if_neg (by omega)]
  | succ n ih =>
    intro f₂ start stop h₁ h₂
    cases f₂ with
    | zero => simp only [slotTimesFuel]; rw [if_neg (by omega)]
    | succ k =>
      simp only [slotTimesFuel]
      by_cases h : start < stop
      · rw [if_pos h, if_pos h, ih k (start + 30) stop (by omega) (by omega)]
      · rw [if_neg h, if_neg h]

/-- The defining equation of the generation loop. -/
theorem slotTimes_eq (start stop : Nat) :
    slotTimes start stop = if start < stop then start :: slotTimes (start + 30) stop else [] := by
  unfold slotTimes
  by_cases h : start < stop
  · obtain ⟨d, hd⟩ : ∃ d, stop - start = d + 1 := ⟨stop - start - 1, by omega⟩
    rw [hd]
    simp only [slotTimesFuel]
    rw [if_pos h, if_pos h]
    rw [slotTimesFuel_congr d (stop - (start + 30)) (start + 30) stop (by omega) (by omega)]
  · have hd : stop - start = 0 := by omega
    rw [hd, if_neg h]; rfl

theorem mem_slotTimesFuel : ∀ f start stop m : Nat, stop - start ≤ f →
    (m ∈ slotTimesFuel f start stop ↔ start ≤ m ∧ m < stop ∧ (m - start) % 30 = 0) := by
  intro f
  induction f with
  | zero =>
    intro start stop m h
    simp only [slotTimesFuel, List.not_mem_nil, false_iff]
    omega
  | succ n ih =>
    intro start stop m h
    simp only [slotTimesFuel]
    by_cases hss : start < stop
    · rw [if_pos hss]
      rw [List.mem_cons, ih (start + 30) stop m (by omega)]
      omega
    · rw [if_neg hss]
      simp only [List.not_mem_nil, false_iff]
      omega

/-- Membership in the generated times: exactly the 30-minute grid points
of `[start, stop)`. -/
theorem mem_slotTimes {start stop m : Nat} :
    m ∈ slotTimes start stop ↔ start ≤ m ∧ m < stop ∧ (m - start) % 30 = 0 :=
  mem_slotTimesFuel _ start stop m le_rfl

/-! ## The JS `Map` deduplication -/

theorem times_replace (acc : List TimeSlot) (s : TimeSlot) :
    ((acc.map fun x => if x.time == s.time then s else x).map (·.time)) = acc.map (·.time) := by
  rw [List.map_map]
  apply List.map_congr_left
  intro x _
  by_cases hx : x.time == s.time
  · simp only [Function.comp_apply, if_pos hx]
    exact (eq_of_beq hx).symm
  · simp only [Function.comp_apply, if_neg hx]

theorem mapInsert_times_of_mem {acc : List TimeSlot} {s : TimeSlot}
    (h : acc.any (fun x => x.time == s.time) = true) :
    (mapInsert acc s).map (·.time) = acc.map (·.time) := by
  unfold mapInsert
  rw [if_pos h]
  exact times_replace acc s

theorem any_time_mem {acc : List TimeSlot} {s : TimeSlot}
    (h : acc.any (fun x => x.time == s.time) = true) : s.time ∈ acc.map (·.time) := by
  obtain ⟨x, hx, hbeq⟩ := List.any_eq_true.mp h
  exact List.mem_map.mpr ⟨x, hx, eq_of_beq hbeq⟩

theorem mem_times_mapInsert {acc : List TimeSlot} {s : TimeSlot} {t : String} :
    t ∈ (mapInsert acc s).map (·.time) ↔ t ∈ acc.map (·.time) ∨ t = s.time := by
  by_cases h : acc.any (fun x => x.time == s.time) = true
  · rw [mapInsert_times_of_mem h]
    constructor
    · exact Or.inl
    · rintro (ht | rfl)
      · exact ht
      · exact any_time_mem h
  · unfold mapInsert
    rw [if_neg h, List.map_append, List.mem_append]
    simp

theorem dedup_foldl_times_mem : ∀ (l acc : List TimeSlot) (t : String),
    (t ∈ ((l.foldl mapInsert acc).map (·.time)) ↔
      t ∈ acc.map (·.time) ∨ ∃ s ∈ l, s.time = t) := by
  intro l
  induction l with
  | nil => simp
  | cons s l ih =>
    intro acc t
    rw [List.foldl_cons, ih, mem_times_mapInsert]
    simp only [List.mem_cons]
    constructor
    · rintro ((ht | rfl) | ⟨x, hx, rfl⟩)
      · exact Or.inl ht
      · exact Or.inr ⟨s, Or.inl rfl, rfl⟩
      · exact Or.inr ⟨x, Or.inr hx, rfl⟩
    · rintro (ht | ⟨x, hx, rfl⟩)
      · exact Or.inl (Or.inl ht)
      · rcases hx with rfl | hx
        · exact Or.inl (Or.inr rfl)
        · exact Or.inr ⟨x, hx, rfl⟩

theorem dedup_foldl_subset : ∀ (l acc : List TimeSlot) (x : TimeSlot),
    x ∈ l.foldl mapInsert acc → x ∈ acc ∨ x ∈ l := by
  intro l
  induction l with
  | nil => intro acc x hx; exact Or.inl hx
  | cons s l ih =>
    intro acc x hx
    rw [List.foldl_cons] at hx
    rcases ih (mapInsert acc s) x hx with hmem | hmem
    · unfold mapInsert at hmem
      by_cases h : acc.any (fun y => y.time == s.time) = true
      · rw [if_pos h] at hmem
        obtain ⟨y, hy, hxy⟩ := List.mem_map.mp hmem
        by_cases hys : y.time == s.time
        · rw [if_pos hys] at hxy; exact Or.inr (hxy ▸ List.mem_cons_self s l)
        · rw [if_neg hys] at hxy; exact Or.inl (hxy ▸ hy)
      · rw [if_neg h, List.mem_append] at hmem
        rcases hmem with hmem | hmem
        · exact Or.inl hmem
        · exact Or.inr (List.mem_singleton.mp hmem ▸ List.mem_cons_self s l)
    · exact Or.inr (List.mem_cons_of_mem s hmem)

theorem dedup_foldl_pairwise : ∀ (l acc : List TimeSlot),
    (acc.map (·.time)).Pairwise strLt →
    (∀ a ∈ acc.map (·.time), ∀ s ∈ l, strLe a s.time) →
    l.Pairwise slotLe →
    ((l.foldl mapInsert acc).map (·.time)).Pairwise strLt := by
  intro l
  induction l with
  | nil => intro acc h _ _; exact h
  | cons s l ih =>
    intro acc hacc hbound hsort
    rw [List.foldl_cons]
    have hsl : ∀ b ∈ l, slotLe s b := (List.pairwise_cons.mp hsort).1
    have hsort' : l.Pairwise slotLe := (List.pairwise_cons.mp hsort).2
    by_cases h : acc.any (fun x => x.time == s.time) = true
    · apply ih (mapInsert acc s)
      · rw [mapInsert_times_of_mem h]; exact hacc
      · rw [mapInsert_times_of_mem h]
        intro a ha b hb
        exact hbound a ha b (List.mem_cons_of_mem s hb)
      · exact hsort'
    · apply ih (mapInsert acc s)
      · unfold mapInsert
        rw [if_neg h, List.map_append, List.pairwise_append]
        refine ⟨hacc, List.pairwise_singleton _ _, ?_⟩
        intro a ha b hb
        have hb' : b = s.time := by simpa using hb
        subst hb'
        have hle : strLe a s.time := hbound a ha s (List.mem_cons_self s l)
        have hne : a ≠ s.time := by
          intro heq
          obtain ⟨x, hx, hxa⟩ := List.mem_map.mp ha
          have : acc.any (fun y => y.time == s.time) = true :=
            List.any_eq_true.mpr ⟨x, hx, by simp [hxa, heq]⟩
          exact h this
        exact strLt_of_strLe_of_ne hle hne
      · intro a ha b hb
        unfold mapInsert at ha
        rw [if_neg h, List.map_append, List.mem_append] at ha
        rcases ha with ha' | ha'
        · exact hbound a ha' b (List.mem_cons_of_mem s hb)
        · have : a = s.time := by simpa using ha'
          subst this
          exact hsl b hb
      · exact hsort'

/-! ## Membership bridges for the slot derivation -/

theorem mem_windowsFor {schedules : List ScheduleRow} {doctorId : String} {dayOfWeek : Nat}
    {w : ScheduleRow} :
    w ∈ windowsFor schedules doctorId dayOfWeek ↔
      w ∈ schedules ∧ w.doctor_id = doctorId ∧ w.day_of_week = dayOfWeek ∧
        w.is_available = true := by
  simp [windowsFor, List.mem_filter, and_assoc]

theorem mem_takenTimesFor {bookings : List BookingRow} {doctorId date t : String} :
    t ∈ takenTimesFor bookings doctorId date ↔
      ∃ b ∈ bookings, b.doctor_id = doctorId ∧ b.appointment_date = date ∧
        b.status ≠ "cancelled" ∧ b.appointment_time = t := by
  simp only [takenTimesFor, List.mem_map, List.mem_filter, Bool.and_eq_true, beq_iff_eq,
    bne_iff_ne, ne_eq]
  constructor
  · rintro ⟨b, ⟨hb, ⟨⟨h1, h2⟩, h3⟩⟩, rfl⟩
    exact ⟨b, hb, h1, h2, h3, rfl⟩
  · rintro ⟨b, hb, h1, h2, h3, rfl⟩
    exact ⟨b, ⟨hb, ⟨⟨h1, h2⟩, h3⟩⟩, rfl⟩

theorem mem_genSlots {windows : List ScheduleRow} {taken : List String} {x : TimeSlot} :
    x ∈ genSlots windows taken ↔
      ∃ w ∈ windows, ∃ m ∈ slotTimes (toMinutes w.start_time) (toMinutes w.end_time),
        x = { time := toHHMM m, available := !taken.contains (toHHMM m) } := by
  simp only [genSlots, List.mem_flatMap, List.mem_map]
  constructor
  · rintro ⟨w, hw, m, hm, rfl⟩
    exact ⟨w, hw, m, hm, rfl⟩
  · rintro ⟨w, hw, m, hm, rfl⟩
    exact ⟨w, hw, m, hm, rfl⟩

theorem contains_iff_mem {l : List String} {t : String} :
    l.contains t = true ↔ t ∈ l := by
  induction l with
  | nil => simp [List.contains]
  | cons a l ih => simp [List.contains_cons, ih]

theorem contains_eq_false_iff {l : List String} {t : String} :
    l.contains t = false ↔ ¬ t ∈ l := by
  rw [← contains_iff_mem]
  cases h : l.contains t <;> simp

/-- Every slot returned by `loadAvailability` is one of the generated
slots (deduplication and sorting add nothing). -/
theorem loadAvailability_subset (schedules : List ScheduleRow) (bookings : List BookingRow)
    (doctorId date : String) (dayOfWeek : Nat) :
    ∀ x ∈ loadAvailability schedules bookings doctorId date dayOfWeek,
      x ∈ genSlots (windowsFor schedules doctorId dayOfWeek)
        (takenTimesFor bookings doctorId date) := by
  intro x hx
  rcases dedup_foldl_subset
      (List.insertionSort slotLe
        (genSlots (windowsFor schedules doctorId dayOfWeek)
          (takenTimesFor bookings doctorId date))) [] x hx with h | h
  · exact absurd h (List.not_mem_nil x)
  · exact (List.perm_insertionSort slotLe _).mem_iff.mp h

/-! ## Claim theorems -/

/-- C3: for every doctorId and date, slot derivation returns, for each
available ScheduleWindow row of that date's weekday, the clock times at
30-minute steps from `start_time` (inclusive) to `end_time` (exclusive),
each available exactly when the time is not the `appointment_time` of a
non-cancelled booking for `(doctorId, date)`; duplicates are removed, the
result is sorted ascending by time (both in string order and, for
well-formed windows, in clock order), and the result is empty when no
ScheduleWindow row exists for that weekday. -/
theorem C3_slot_derivation (schedules : List ScheduleRow) (bookings : List BookingRow)
    (doctorId date : String) (dayOfWeek : Nat)
    (hwf : ∀ w ∈ schedules, toMinutes w.end_time ≤ 1470) :
    (∀ t : String,
      (∃ s ∈ loadAvailability schedules bookings doctorId date dayOfWeek, s.time = t) ↔
        ∃ w ∈ schedules, w.doctor_id = doctorId ∧ w.day_of_week = dayOfWeek ∧
          w.is_available = true ∧
          ∃ m : Nat, toMinutes w.start_time ≤ m ∧ m < toMinutes w.end_time ∧
            (m - toMinutes w.start_time) % 30 = 0 ∧ t = toHHMM m)
    ∧ (∀ s ∈ loadAvailability schedules bookings doctorId date dayOfWeek,
        (s.available = true ↔
          ¬ ∃ b ∈ bookings, b.doctor_id = doctorId ∧ b.appointment_date = date ∧
            b.status ≠ "cancelled" ∧ b.appointment_time = s.time))
    ∧ ((loadAvailability schedules bookings doctorId date dayOfWeek).map (·.time)).Pairwise strLt
    ∧ List.Pairwise (fun a b : TimeSlot => toMinutes a.time < toMinutes b.time)
        (loadAvailability schedules bookings doctorId date dayOfWeek)
    ∧ ((∀ w ∈ schedules, ¬ (w.doctor_id = doctorId ∧ w.day_of_week = dayOfWeek)) →
        loadAvailability schedules bookings doctorId date dayOfWeek = []) := by
  set windows := windowsFor schedules doctorId dayOfWeek with hwindows
  set taken := takenTimesFor bookings doctorId date with htaken
  set slots := genSlots windows taken with hslots
  set sorted := List.insertionSort slotLe slots with hsorted_def
  have hresult : loadAvailability schedules bookings doctorId date dayOfWeek =
      dedupLastWins sorted := rfl
  have hperm : sorted.Perm slots := List.perm_insertionSort slotLe slots
  have hsorted : List.Pairwise slotLe sorted := List.sorted_insertionSort slotLe slots
  have hsub : ∀ x ∈ loadAvailability schedules bookings doctorId date dayOfWeek, x ∈ slots :=
    loadAvailability_subset schedules bookings doctorId date dayOfWeek
  have hmem1 : ∀ t : String,
      ((∃ s ∈ loadAvailability schedules bookings doctorId date dayOfWeek, s.time = t) ↔
        ∃ w ∈ schedules, w.doctor_id = doctorId ∧ w.day_of_week = dayOfWeek ∧
          w.is_available = true ∧
          ∃ m : Nat, toMinutes w.start_time ≤ m ∧ m < toMinutes w.end_time ∧
            (m - toMinutes w.start_time) % 30 = 0 ∧ t = toHHMM m) := by
    intro t
    constructor
    · rintro ⟨s, hs, rfl⟩
      obtain ⟨w, hw, m, hm, rfl⟩ := mem_genSlots.mp (hsub s hs)
      obtain ⟨hws, hwd, hww, hwa⟩ := mem_windowsFor.mp hw
      obtain ⟨h1, h2, h3⟩ := mem_slotTimes.mp hm
      exact ⟨w, hws, hwd, hww, hwa, m, h1, h2, h3, rfl⟩
    · rintro ⟨w, hws, hwd, hww, hwa, m, h1, h2, h3, rfl⟩
      have hwmem : w ∈ windows := mem_windowsFor.mpr ⟨hws, hwd, hww, hwa⟩
      have hslot : ({ time := toHHMM m, available := !taken.contains (toHHMM m) } : TimeSlot)
          ∈ slots := mem_genSlots.mpr ⟨w, hwmem, m, mem_slotTimes.mpr ⟨h1, h2, h3⟩, rfl⟩
      have hmem : toHHMM m ∈ (dedupLastWins sorted).map (·.time) :=
        (dedup_foldl_times_mem sorted [] _).mpr
          (Or.inr ⟨_, hperm.mem_iff.mpr hslot, rfl⟩)
      obtain ⟨s, hs, hst⟩ := List.mem_map.mp hmem
      exact ⟨s, hresult ▸ hs, hst⟩
  have hmem2 : ∀ s ∈ loadAvailability schedules bookings doctorId date dayOfWeek,
      (s.available = true ↔
        ¬ ∃ b ∈ bookings, b.doctor_id = doctorId ∧ b.appointment_date = date ∧
          b.status ≠ "cancelled" ∧ b.appointment_time = s.time) := by
    intro s hs
    obtain ⟨w, hw, m, hm, rfl⟩ := mem_genSlots.mp (hsub s hs)
    show (!taken.contains (toHHMM m)) = true ↔ _
    rw [Bool.not_eq_true', contains_eq_false_iff, htaken]
    exact not_congr mem_takenTimesFor
  have hpw : ((loadAvailability schedules bookings doctorId date dayOfWeek).map
      (·.time)).Pairwise strLt := by
    rw [hresult]
    apply dedup_foldl_pairwise sorted []
    · exact List.Pairwise.nil
    · intro a ha
      simp at ha
    · exact hsorted
  refine ⟨hmem1, hmem2, hpw, ?_, ?_⟩
  · have hpw' : List.Pairwise (fun a b : TimeSlot => strLt a.time b.time)
        (loadAvailability schedules bookings doctorId date dayOfWeek) :=
      List.pairwise_map.mp hpw
    apply hpw'.imp_of_mem
    intro a b ha hb hab
    obtain ⟨wa, hwa, ma, hma, rfl⟩ := mem_genSlots.mp (hsub a ha)
    obtain ⟨wb, hwb, mb, hmb, rfl⟩ := mem_genSlots.mp (hsub b hb)
    have hma' := mem_slotTimes.mp hma
    have hmb' := mem_slotTimes.mp hmb
    have hba : ma < 1470 := by
      have := hwf wa (mem_windowsFor.mp hwa).1
      omega
    have hbb : mb < 1470 := by
      have := hwf wb (mem_windowsFor.mp hwb).1
      omega
    have hlt : ma < mb := by
      by_contra hcon
      have hle : strLe (toHHMM mb) (toHHMM ma) :=
        (toHHMM_le_iff (by omega) (by omega)).mpr (by omega)
      exact (strLe_iff_not_strLt.mp hle) hab
    show toMinutes (toHHMM ma) < toMinutes (toHHMM mb)
    rw [toMinutes_toHHMM ma hba, toMinutes_toHHMM mb hbb]
    exact hlt
  · intro hempty
    have hwempty : windows = [] := by
      rw [hwindows, windowsFor]
      rw [List.filter_eq_nil_iff]
      intro a ha
      simp only [Bool.and_eq_true, beq_iff_eq, not_and]
      intro h1
      exact absurd h1 (hempty a ha)
    rw [hresult, hsorted_def, hslots, hwempty]
    rfl

/-- Witness for C3 at a concrete doctor, date and booking table. -/
theorem C3_slot_derivation_witness :
    ((loadAvailability demoSchedules demoBookings "d1" "2026-10-20" 1).map
      (·.time)).Pairwise strLt := by
  have h := C3_slot_derivation demoSchedules demoBookings "d1" "2026-10-20" 1 (by decide)
  exact h.2.2.1

/-- C10: a generated slot is marked unavailable exactly when its
zero-padded `HH:MM` string equals, by exact string comparison, the
`appointment_time` of some non-cancelled booking for the same doctor and
date; a time recorded as `09:00:00` (or any other textual variant) does
not mark the `09:00` slot as taken, while `09:00` does. -/
theorem C10_exact_string_match :
    (∀ (schedules : List ScheduleRow) (bookings : List BookingRow) (doctorId date : String)
      (dayOfWeek : Nat), ∀ s ∈ loadAvailability schedules bookings doctorId date dayOfWeek,
        (s.available = false ↔
          ∃ b ∈ bookings, b.doctor_id = doctorId ∧ b.appointment_date = date ∧
            b.status ≠ "cancelled" ∧ b.appointment_time = s.time))
    ∧ loadAvailability demoSchedules demoBookingsSecs "d1" "2026-10-20" 1 =
        [{ time := "08:00", available := true }, { time := "08:30", available := true },
         { time := "09:00", available := true }, { time := "09:30", available := true }]
    ∧ loadAvailability demoSchedules demoBookings "d1" "2026-10-20" 1 =
        [{ time := "08:00", available := true }, { time := "08:30", available := true },
         { time := "09:00", available := false }, { time := "09:30", available := true }] := by
  refine ⟨?_, by decide, by decide⟩
  intro schedules bookings doctorId date dayOfWeek s hs
  obtain ⟨w, hw, m, hm, rfl⟩ :=
    mem_genSlots.mp (loadAvailability_subset schedules bookings doctorId date dayOfWeek s hs)
  show (!(takenTimesFor bookings doctorId date).contains (toHHMM m)) = false ↔ _
  rw [Bool.not_eq_false', contains_iff_mem]
  exact mem_takenTimesFor

/-- Witness for C10's general clause on the concrete booking table. -/
theorem C10_exact_string_match_witness :
    (({ time := "09:00", available := false } : TimeSlot).available = false ↔
      ∃ b ∈ demoBookings, b.doctor_id = "d1" ∧ b.appointment_date = "2026-10-20" ∧
        b.status ≠ "cancelled" ∧
        b.appointment_time = ({ time := "09:00", available := false } : TimeSlot).time) :=
  C10_exact_string_match.1 demoSchedules demoBookings "d1" "2026-10-20" 1
    { time := "09:00", available := false } (by decide)

/-! ## Conflict-check and fee lemmas -/

theorem activeConflicts_pos_iff {db : List BookingRow} {doctorId date time : String} :
    0 < (activeConflicts db doctorId date time).length ↔
      ∃ b ∈ db, b.doctor_id = doctorId ∧ b.appointment_date = date ∧
        b.appointment_time = time ∧ b.status ≠ "cancelled" := by
  rw [List.length_pos_iff_exists_mem]
  simp only [activeConflicts, List.mem_filter, Bool.and_eq_true, beq_iff_eq, bne_iff_ne, ne_eq]
  constructor
  · rintro ⟨b, hb, ⟨⟨⟨h1, h2⟩, h3⟩, h4⟩⟩
    exact ⟨b, hb, h1, h2, h3, h4⟩
  · rintro ⟨b, hb, h1, h2, h3, h4⟩
    exact ⟨b, hb, ⟨⟨⟨h1, h2⟩, h3⟩, h4⟩⟩

theorem computeBookingFee_premium_credit {m : MembershipRow} (h1 : m.membership_type = "premium")
    (h2 : 0 < m.free_bookings_remaining.getD 0) : computeBookingFee (some m) = (0, true) := by
  unfold computeBookingFee
  rw [if_pos (by simp [h1, h2])]

theorem computeBookingFee_no_credit {m : MembershipRow}
    (h2 : ¬ 0 < m.free_bookings_remaining.getD 0) :
    computeBookingFee (some m) = (1000, false) := by
  unfold computeBookingFee
  rw [if_neg (fun hc => h2 (by simpa using hc.2))]

theorem computeBookingFee_not_premium {m : MembershipRow} (h1 : m.membership_type ≠ "premium") :
    computeBookingFee (some m) = (1000, false) := by
  unfold computeBookingFee
  rw [if_neg (fun hc => h1 (by simpa using hc.1))]

/-- C1: every booking-creation attempt re-checks the slot at write time:
when an active (non-cancelled) booking already holds `(doctorId, date,
time)`, both the direct fallback and the (spec-modelled) `create-booking`
edge function fail with `SlotUnavailable` and insert nothing; when no
such booking exists, both proceed and append exactly one new row. -/
theorem C1_conflict_recheck (db : List BookingRow) (memberships : List MembershipRow)
    (userId doctorId date time notes paymentMethod : String) (consultationFee : Nat)
    (newId nowIso : String) :
    ((∃ b ∈ db, b.doctor_id = doctorId ∧ b.appointment_date = date ∧
        b.appointment_time = time ∧ b.status ≠ "cancelled") →
      (catchFallback db memberships userId doctorId date time notes paymentMethod
          consultationFee newId nowIso).1 = Outcome.slotUnavailable ∧
      (catchFallback db memberships userId doctorId date time notes paymentMethod
          consultationFee newId nowIso).2.1 = db ∧
      (createBookingEdge db userId doctorId date time notes consultationFee newId nowIso).1 =
        none ∧
      (createBookingEdge db userId doctorId date time notes consultationFee newId nowIso).2 = db)
    ∧ ((¬ ∃ b ∈ db, b.doctor_id = doctorId ∧ b.appointment_date = date ∧
        b.appointment_time = time ∧ b.status ≠ "cancelled") →
      (∃ nb, (catchFallback db memberships userId doctorId date time notes paymentMethod
          consultationFee newId nowIso).1 = Outcome.bookingCreated nb ∧
        (catchFallback db memberships userId doctorId date time notes paymentMethod
          consultationFee newId nowIso).2.1 = db ++ [nb]) ∧
      (∃ nb, (createBookingEdge db userId doctorId date time notes consultationFee
          newId nowIso).1 = some nb ∧
        (createBookingEdge db userId doctorId date time notes consultationFee
          newId nowIso).2 = db ++ [nb])) := by
  constructor
  · intro hc
    have hlen : 0 < (activeConflicts db doctorId date time).length :=
      activeConflicts_pos_iff.mpr hc
    unfold catchFallback createBookingEdge
    rw [if_pos hlen, if_pos hlen]
    exact ⟨rfl, rfl, rfl, rfl⟩
  · intro hnc
    have hlen : ¬ 0 < (activeConflicts db doctorId date time).length := fun h =>
      hnc (activeConflicts_pos_iff.mp h)
    unfold catchFallback createBookingEdge
    rw [if_neg hlen, if_neg hlen]
    exact ⟨⟨_, rfl, rfl⟩, ⟨_, rfl, rfl⟩⟩

/-- C2: every booking created by the patient fallback flow is inserted
with `status = pending`, `payment_status = pending`, `total_amount =
booking_fee`; the fee is 0 exactly when the user's membership is premium
with a free booking remaining (1000 otherwise), the consumed credit is
decremented exactly once; a premium user starting with one free credit
pays 0, is left with 0 credits, and pays 1000 on the second booking. -/
theorem C2_fee_and_credit (db : List BookingRow) (memberships : List MembershipRow)
    (userId doctorId date time notes paymentMethod : String) (consultationFee : Nat)
    (newId nowIso : String) :
    ((¬ ∃ b ∈ db, b.doctor_id = doctorId ∧ b.appointment_date = date ∧
        b.appointment_time = time ∧ b.status ≠ "cancelled") →
      ∃ nb, (catchFallback db memberships userId doctorId date time notes paymentMethod
          consultationFee newId nowIso).1 = Outcome.bookingCreated nb ∧
        (catchFallback db memberships userId doctorId date time notes paymentMethod
          consultationFee newId nowIso).2.1 = db ++ [nb] ∧
        nb.status = "pending" ∧ nb.payment_status = "pending" ∧
        nb.total_amount = nb.booking_fee ∧ nb.consultation_fee = consultationFee ∧
        (∀ mrow, memberships.find? (fun m => m.user_id == userId) = some mrow →
          mrow.membership_type = "premium" → 0 < mrow.free_bookings_remaining.getD 0 →
          nb.booking_fee = 0 ∧
          (catchFallback db memberships userId doctorId date time notes paymentMethod
              consultationFee newId nowIso).2.2 =
            memberships.map (fun m => if m.user_id == userId then
              { m with
                free_bookings_remaining := some (mrow.free_bookings_remaining.getD 0 - 1)
                updated_at := nowIso }
              else m)) ∧
        ((∀ mrow, memberships.find? (fun m => m.user_id == userId) = some mrow →
            ¬ (mrow.membership_type = "premium" ∧ 0 < mrow.free_bookings_remaining.getD 0)) →
          nb.booking_fee = 1000 ∧
          (catchFallback db memberships userId doctorId date time notes paymentMethod
              consultationFee newId nowIso).2.2 = memberships))
    ∧ (∀ u0 date1 time1 date2 time2 newId2 now2 : String,
        (date2 ≠ date1 ∨ time2 ≠ time1) →
        ∃ nb1 nb2,
          catchFallback [] [⟨userId, "premium", true, some 1, u0⟩] userId doctorId date1 time1
              notes paymentMethod consultationFee newId nowIso =
            (Outcome.bookingCreated nb1, [nb1],
              [⟨userId, "premium", true, some 0, nowIso⟩]) ∧
          nb1.booking_fee = 0 ∧
          catchFallback [nb1] [⟨userId, "premium", true, some 0, nowIso⟩] userId doctorId
              date2 time2 notes paymentMethod consultationFee newId2 now2 =
            (Outcome.bookingCreated nb2, [nb1, nb2],
              [⟨userId, "premium", true, some 0, nowIso⟩]) ∧
          nb2.booking_fee = 1000) := by
  constructor
  · intro hnc
    have hlen : ¬ 0 < (activeConflicts db doctorId date time).length := fun h =>
      hnc (activeConflicts_pos_iff.mp h)
    unfold catchFallback
    rw [if_neg hlen]
    refine ⟨_, rfl, rfl, rfl, rfl, rfl, rfl, ?_, ?_⟩
    · intro mrow hfind hprem hfree
      constructor
      · show (computeBookingFee (memberships.find? fun m => m.user_id == userId)).1 = 0
        rw [hfind, computeBookingFee_premium_credit hprem hfree]
      · show (if (computeBookingFee (memberships.find? fun m => m.user_id == userId)).2
            then _ else _) = _
        rw [hfind, computeBookingFee_premium_credit hprem hfree]
        simp
    · intro hno
      cases hfind : memberships.find? (fun m => m.user_id == userId) with
      | none => exact ⟨rfl, rfl⟩
      | some mrow =>
        have hfee : computeBookingFee (some mrow) = (1000, false) := by
          by_cases hp : mrow.membership_type = "premium"
          · exact computeBookingFee_no_credit (fun hf => hno mrow hfind ⟨hp, hf⟩)
          · exact computeBookingFee_not_premium hp
        exact ⟨by simp [hfee], by simp [hfee]⟩
  · intro u0 date1 time1 date2 time2 newId2 now2 hdiff
    have hlen1 : ¬ 0 < (activeConflicts [] doctorId date1 time1).length := by
      simp [activeConflicts]
    have hfind1 : ([⟨userId, "premium", true, some 1, u0⟩] : List MembershipRow).find?
        (fun m => m.user_id == userId) = some ⟨userId, "premium", true, some 1, u0⟩ :=
      List.find?_cons_of_pos _ (by simp)
    have hfee1 : computeBookingFee (some (⟨userId, "premium", true, some 1, u0⟩ :
        MembershipRow)) = (0, true) :=
      computeBookingFee_premium_credit rfl (by simp)
    refine ⟨{ id := newId, user_id := userId, doctor_id := doctorId,
              appointment_date := date1, appointment_time := time1, status := "pending",
              payment_status := "pending", consultation_fee := consultationFee,
              booking_fee := 0, total_amount := 0,
              patient_notes := notes ++ "\nPayment method: " ++
                paymentMethod.replace "_" " ",
              updated_at := nowIso },
      { id := newId2, user_id := userId, doctor_id := doctorId,
        appointment_date := date2, appointment_time := time2, status := "pending",
        payment_status := "pending", consultation_fee := consultationFee,
        booking_fee := 1000, total_amount := 1000,
        patient_notes := notes ++ "\nPayment method: " ++ paymentMethod.replace "_" " ",
        updated_at := now2 }, ?_, rfl, ?_, rfl⟩
    · simp only [catchFallback]
      rw [if_neg hlen1, hfind1, hfee1]
      simp
    · have hpred : ∀ nb1 : BookingRow, nb1.appointment_date = date1 →
          nb1.appointment_time = time1 →
          (nb1.doctor_id == doctorId && nb1.appointment_date == date2 &&
            nb1.appointment_time == time2 && nb1.status != "cancelled") = false := by
        intro nb1 hd ht
        rcases hdiff with h | h
        · rw [hd]
          simp [beq_eq_false_iff_ne, Ne.symm h]
        · rw [ht]
          simp [beq_eq_false_iff_ne, Ne.symm h]
      have hlen2 : ¬ 0 < (activeConflicts
          [{ id := newId, user_id := userId, doctor_id := doctorId,
             appointment_date := date1, appointment_time := time1, status := "pending",
             payment_status := "pending", consultation_fee := consultationFee,
             booking_fee := (0 : Nat), total_amount := (0 : Nat),
             patient_notes := notes ++ "\nPayment method: " ++ paymentMethod.replace "_" " ",
             updated_at := nowIso }] doctorId date2 time2).length := by
        rw [activeConflicts, List.filter_cons]
        rw [hpred _ rfl rfl]
        simp
      have hfind2 : ([⟨userId, "premium", true, some 0, nowIso⟩] : List MembershipRow).find?
          (fun m => m.user_id == userId) = some ⟨userId, "premium", true, some 0, nowIso⟩ :=
        List.find?_cons_of_pos _ (by simp)
      have hfee2 : computeBookingFee (some (⟨userId, "premium", true, some 0, nowIso⟩ :
          MembershipRow)) = (1000, false) :=
        computeBookingFee_no_credit (by simp)
      simp only [catchFallback]
      rw [if_neg hlen2, hfind2, hfee2]
      simp

/-- Witness for C2: the concrete two-booking run of a premium user with
one free credit ends with zero credits stored. -/
theorem C2_fee_and_credit_witness :
    (catchFallback [] [⟨"u1", "premium", true, some 1, "t0"⟩] "u1" "d1" "2026-10-20" "09:00"
      "" "cash" 100 "b1" "t1").2.2 = [⟨"u1", "premium", true, some 0, "t1"⟩] := by
  obtain ⟨nb1, nb2, h1, hfee1, h2, hfee2⟩ :=
    (C2_fee_and_credit [] [] "u1" "d1" "x" "y" "" "cash" 100 "b1" "t1").2
      "t0" "2026-10-20" "09:00" "2026-10-21" "09:00" "b2" "t2" (Or.inl (by decide))
  rw [h1]

/-- Witness for C1: a pending booking on the slot makes the direct
fallback fail with SlotUnavailable and leave the table unchanged. -/
theorem C1_conflict_recheck_witness :
    (catchFallback demoBookings [] "u2" "d1" "2026-10-20" "09:00" "" "cash" 100 "b2" "t1").1 =
        Outcome.slotUnavailable ∧
      (catchFallback demoBookings [] "u2" "d1" "2026-10-20" "09:00" "" "cash" 100
        "b2" "t1").2.1 = demoBookings := by
  have h := C1_conflict_recheck demoBookings [] "u2" "d1" "2026-10-20" "09:00" "" "cash"
    100 "b2" "t1"
  exact ⟨(h.1 (by decide)).1, (h.1 (by decide)).2.1⟩

/-- Whatever `catchFallback` does, every row already in the table is
still in the table afterwards. -/
theorem catchFallback_db_superset (db : List BookingRow) (memberships : List MembershipRow)
    (userId doctorId date time notes paymentMethod : String) (consultationFee : Nat)
    (newId nowIso : String) :
    ∀ x ∈ db, x ∈ (catchFallback db memberships userId doctorId date time notes paymentMethod
      consultationFee newId nowIso).2.1 := by
  intro x hx
  unfold catchFallback
  by_cases h : 0 < (activeConflicts db doctorId date time).length
  · rw [if_pos h]; exact hx
  · rw [if_neg h]; exact List.mem_append_left _ hx

/-- C7 counterexample: the primary channel returns a business-logic
rejection (not a transport failure), yet the secondary direct HTTP
channel is attempted. -/
theorem C7_counterexample :
    (createPhase CreateChanRes.bizReject CreateChanRes.transportFail).1 =
      [Channel.primaryInvoke, Channel.secondaryHttp] := rfl

/-- C7 (amended): for each remote operation the primary channel is tried
exactly once, the secondary at most once, and the secondary is attempted
exactly when the primary produced no result — a transport failure or a
business-logic rejection alike, not only on transport failure. -/
theorem C7_channel_fallback (p s : CreateChanRes) (pp ps : PayChanRes) :
    ((createPhase p s).1.count Channel.primaryInvoke = 1 ∧
      (createPhase p s).1.count Channel.secondaryHttp ≤ 1 ∧
      (Channel.secondaryHttp ∈ (createPhase p s).1 ↔ ∀ b, p ≠ CreateChanRes.ok b))
    ∧ ((payPhase pp ps).1.count Channel.primaryInvoke = 1 ∧
      (payPhase pp ps).1.count Channel.secondaryHttp ≤ 1 ∧
      (Channel.secondaryHttp ∈ (payPhase pp ps).1 ↔ ∀ u, pp ≠ PayChanRes.ok u)) := by
  constructor
  · cases p with
    | ok b =>
      simp only [createPhase]
      refine ⟨by decide, by decide, ?_⟩
      constructor
      · intro h
        exact absurd h (by decide)
      · intro h
        exact absurd rfl (h b)
    | bizReject =>
      cases s <;> simp only [createPhase] <;>
        exact ⟨by decide, by decide, ⟨fun _ b hb => CreateChanRes.noConfusion hb,
          fun _ => by decide⟩⟩
    | transportFail =>
      cases s <;> simp only [createPhase] <;>
        exact ⟨by decide, by decide, ⟨fun _ b hb => CreateChanRes.noConfusion hb,
          fun _ => by decide⟩⟩
  · cases pp with
    | ok u =>
      simp only [payPhase]
      refine ⟨by decide, by decide, ?_⟩
      constructor
      · intro h
        exact absurd h (by decide)
      · intro h
        exact absurd rfl (h u)
    | fail =>
      cases ps <;> simp only [payPhase] <;>
        exact ⟨by decide, by decide, ⟨fun _ u hu => PayChanRes.noConfusion hu,
          fun _ => by decide⟩⟩

/-- C6 counterexample: booking creation succeeded, then payment
initiation failed on both channels; the flow surfaces SlotUnavailable
(its own booking trips the fallback's conflict check), not a
retry-payment-later outcome, and no direct booking with pending payment
is created. -/
theorem C6_counterexample :
    handleBookingFlow [] []
        (CreateChanRes.ok
          { id := "b1", user_id := "u1", doctor_id := "d1",
            appointment_date := "2026-10-20", appointment_time := "09:00",
            status := "pending", payment_status := "pending", consultation_fee := 100,
            booking_fee := 1000, total_amount := 1000, patient_notes := "",
            updated_at := "t0" })
        CreateChanRes.transportFail PayChanRes.fail PayChanRes.fail
        "u1" "d1" "2026-10-20" "09:00" "" "cash" 100 "b2" "t1" =
      (Outcome.slotUnavailable,
        [{ id := "b1", user_id := "u1", doctor_id := "d1",
           appointment_date := "2026-10-20", appointment_time := "09:00",
           status := "pending", payment_status := "pending", consultation_fee := 100,
           booking_fee := 1000, total_amount := 1000, patient_notes := "",
           updated_at := "t0" }], []) := by decide

/-- C6 (amended): on total failure the flow runs the direct-creation
fallback: when the booking was never created upstream and the slot is
free it creates the booking with `payment_status = pending` and surfaces
the created outcome; when the booking was already created and payment
initiation totally fails, the fallback's conflict check finds that very
booking and surfaces SlotUnavailable while the booking is preserved; a
row once in the table is never deleted or cancelled by this flow. -/
theorem C6_orchestration (db : List BookingRow) (memberships : List MembershipRow)
    (cp cs : CreateChanRes) (pp ps : PayChanRes)
    (userId doctorId date time notes paymentMethod : String) (consultationFee : Nat)
    (newId nowIso : String) :
    (∀ b, (createPhase cp cs).2 = some b → (payPhase pp ps).2 = none →
      b.doctor_id = doctorId → b.appointment_date = date → b.appointment_time = time →
      b.status ≠ "cancelled" →
      handleBookingFlow db memberships cp cs pp ps userId doctorId date time notes
          paymentMethod consultationFee newId nowIso =
        (Outcome.slotUnavailable, db ++ [b], memberships))
    ∧ ((createPhase cp cs).2 = none →
      (¬ ∃ b' ∈ db, b'.doctor_id = doctorId ∧ b'.appointment_date = date ∧
        b'.appointment_time = time ∧ b'.status ≠ "cancelled") →
      ∃ nb, (handleBookingFlow db memberships cp cs pp ps userId doctorId date time notes
          paymentMethod consultationFee newId nowIso).1 = Outcome.bookingCreated nb ∧
        (handleBookingFlow db memberships cp cs pp ps userId doctorId date time notes
          paymentMethod consultationFee newId nowIso).2.1 = db ++ [nb] ∧
        nb.payment_status = "pending")
    ∧ (∀ x ∈ db, x ∈ (handleBookingFlow db memberships cp cs pp ps userId doctorId date time
        notes paymentMethod consultationFee newId nowIso).2.1) := by
  refine ⟨?_, ?_, ?_⟩
  · intro b hcb hpay h1 h2 h3 h4
    simp only [handleBookingFlow, hcb, hpay]
    have hconf : 0 < (activeConflicts (db ++ [b]) doctorId date time).length :=
      activeConflicts_pos_iff.mpr
        ⟨b, List.mem_append_right _ (List.mem_singleton.mpr rfl), h1, h2, h3, h4⟩
    unfold catchFallback
    rw [if_pos hconf]
  · intro hnone hnc
    simp only [handleBookingFlow, hnone]
    have hlen : ¬ 0 < (activeConflicts db doctorId date time).length := fun h =>
      hnc (activeConflicts_pos_iff.mp h)
    unfold catchFallback
    rw [if_neg hlen]
    exact ⟨_, rfl, rfl, rfl⟩
  · intro x hx
    cases hc : (createPhase cp cs).2 with
    | none =>
      simp only [handleBookingFlow, hc]
      exact catchFallback_db_superset db memberships userId doctorId date time notes
        paymentMethod consultationFee newId nowIso x hx
    | some b =>
      cases hp : (payPhase pp ps).2 with
      | none =>
        simp only [handleBookingFlow, hc, hp]
        exact catchFallback_db_superset (db ++ [b]) memberships userId doctorId date time
          notes paymentMethod consultationFee newId nowIso x (List.mem_append_left _ hx)
      | some url =>
        simp only [handleBookingFlow, hc, hp]
        exact List.mem_append_left _ hx

/-- Witness for C6 (amended): a pre-existing row survives a run of the
orchestration that ends in the direct-creation fallback. -/
theorem C6_orchestration_witness :
    ({ id := "b1", user_id := "u1", doctor_id := "d1", appointment_date := "2026-10-20",
       appointment_time := "09:00", status := "pending", payment_status := "pending",
       consultation_fee := 100, booking_fee := 1000, total_amount := 1000,
       patient_notes := "", updated_at := "t0" } : BookingRow) ∈
      (handleBookingFlow
        [{ id := "b1", user_id := "u1", doctor_id := "d1", appointment_date := "2026-10-20",
           appointment_time := "09:00", status := "pending", payment_status := "pending",
           consultation_fee := 100, booking_fee := 1000, total_amount := 1000,
           patient_notes := "", updated_at := "t0" }] []
        CreateChanRes.transportFail CreateChanRes.transportFail PayChanRes.fail
        PayChanRes.fail "u1" "d1" "2026-10-21" "10:00" "" "cash" 100 "b2" "t1").2.1 := by
  have h := C6_orchestration
    [{ id := "b1", user_id := "u1", doctor_id := "d1", appointment_date := "2026-10-20",
       appointment_time := "09:00", status := "pending", payment_status := "pending",
       consultation_fee := 100, booking_fee := 1000, total_amount := 1000,
       patient_notes := "", updated_at := "t0" }] []
    CreateChanRes.transportFail CreateChanRes.transportFail PayChanRes.fail PayChanRes.fail
    "u1" "d1" "2026-10-21" "10:00" "" "cash" 100 "b2" "t1"
  exact h.2.2 _ (by decide)

/-- C8: the patient cancellation reachable from the UI cancels a booking
only while its status is `pending` and its appointment date is still in
the future, and then flips exactly that booking's `status` to
`cancelled`: every other field of the booking, every other booking, and
the membership table are untouched. -/
theorem C8_patient_cancellation (db : List BookingRow) (memberships : List MembershipRow)
    (bookingId : String) (isFuture : String → Bool) :
    ((cancelFromHistory db memberships bookingId isFuture).2 = memberships)
    ∧ (∀ b, db.find? (fun x => x.id == bookingId) = some b →
        (b.status ≠ "pending" ∨ isFuture b.appointment_date = false) →
        (cancelFromHistory db memberships bookingId isFuture).1 = db)
    ∧ (db.find? (fun x => x.id == bookingId) = none →
        (cancelFromHistory db memberships bookingId isFuture).1 = db)
    ∧ (∀ b, db.find? (fun x => x.id == bookingId) = some b →
        b.status = "pending" → isFuture b.appointment_date = true →
        ∀ x ∈ db,
          (x.id ≠ bookingId →
            x ∈ (cancelFromHistory db memberships bookingId isFuture).1) ∧
          (x.id = bookingId →
            { x with status := "cancelled" } ∈
              (cancelFromHistory db memberships bookingId isFuture).1)) := by
  refine ⟨?_, ?_, ?_, ?_⟩
  · unfold cancelFromHistory
    cases db.find? (fun x => x.id == bookingId) with
    | none => rfl
    | some b =>
      show (if (b.status == "pending" && isFuture b.appointment_date) = true then
          (cancelBookingUpdate db bookingId, memberships) else (db, memberships)).2 =
        memberships
      by_cases hc : (b.status == "pending" && isFuture b.appointment_date) = true
      · rw [if_pos hc]
      · rw [if_neg hc]
  · intro b hf hbad
    simp only [cancelFromHistory, hf]
    rw [if_neg]
    intro hc
    rw [Bool.and_eq_true, beq_iff_eq] at hc
    rcases hbad with h | h
    · exact h hc.1
    · rw [hc.2] at h
      exact Bool.noConfusion h
  · intro hf
    simp only [cancelFromHistory, hf]
  · intro b hf hp hfu x hx
    simp only [cancelFromHistory, hf]
    rw [if_pos (by simp [hp, hfu])]
    constructor
    · intro hne
      exact List.mem_map.mpr ⟨x, hx, by rw [if_neg (by simp [hne])]⟩
    · intro heq
      exact List.mem_map.mpr ⟨x, hx, by rw [if_pos (by simp [heq])]⟩

/-- Witness for C8: a pending booking whose date is no longer in the
future is not cancelled; the table is unchanged. -/
theorem C8_patient_cancellation_witness :
    (cancelFromHistory demoBookings [] "b1" (fun _ => false)).1 = demoBookings := by
  have h := C8_patient_cancellation demoBookings [] "b1" (fun _ => false)
  exact h.2.1
    { id := "b1", user_id := "u1", doctor_id := "d1", appointment_date := "2026-10-20",
      appointment_time := "09:00", status := "pending", payment_status := "pending",
      consultation_fee := 100, booking_fee := 1000, total_amount := 1000,
      patient_notes := "", updated_at := "t0" } (by decide) (Or.inr rfl)

/-- C9: `approveBooking` (to `confirmed`) and `rejectBooking` (to
`cancelled`) update only the booking with the given id that belongs to
the acting doctor and is still `pending`; any booking that is already
confirmed, cancelled or completed, or that belongs to another doctor, is
left unchanged, and only `status` and `updated_at` are written. -/
theorem C9_doctor_decision (db : List BookingRow) (doctorId bookingId nowIso : String) :
    (∀ b ∈ db, (b.id ≠ bookingId ∨ b.doctor_id ≠ doctorId ∨ b.status ≠ "pending") →
      b ∈ approveBooking db doctorId bookingId nowIso ∧
      b ∈ rejectBooking db doctorId bookingId nowIso)
    ∧ (∀ b ∈ db, b.id = bookingId → b.doctor_id = doctorId → b.status = "pending" →
      { b with status := "confirmed", updated_at := nowIso } ∈
          approveBooking db doctorId bookingId nowIso ∧
      { b with status := "cancelled", updated_at := nowIso } ∈
          rejectBooking db doctorId bookingId nowIso)
    ∧ (∀ x ∈ approveBooking db doctorId bookingId nowIso, ∃ b ∈ db,
        x.user_id = b.user_id ∧ x.doctor_id = b.doctor_id ∧ x.id = b.id ∧
        x.appointment_date = b.appointment_date ∧ x.appointment_time = b.appointment_time ∧
        x.payment_status = b.payment_status ∧ x.consultation_fee = b.consultation_fee ∧
        x.booking_fee = b.booking_fee ∧ x.total_amount = b.total_amount ∧
        x.patient_notes = b.patient_notes ∧
        (x = b ∨ (x.status = "confirmed" ∧ x.updated_at = nowIso ∧ b.status = "pending" ∧
          b.id = bookingId ∧ b.doctor_id = doctorId)))
    ∧ (∀ x ∈ rejectBooking db doctorId bookingId nowIso, ∃ b ∈ db,
        x.user_id = b.user_id ∧ x.doctor_id = b.doctor_id ∧ x.id = b.id ∧
        x.appointment_date = b.appointment_date ∧ x.appointment_time = b.appointment_time ∧
        x.payment_status = b.payment_status ∧ x.consultation_fee = b.consultation_fee ∧
        x.booking_fee = b.booking_fee ∧ x.total_amount = b.total_amount ∧
        x.patient_notes = b.patient_notes ∧
        (x = b ∨ (x.status = "cancelled" ∧ x.updated_at = nowIso ∧ b.status = "pending" ∧
          b.id = bookingId ∧ b.doctor_id = doctorId))) := by
  have hcond : ∀ b : BookingRow,
      (b.id ≠ bookingId ∨ b.doctor_id ≠ doctorId ∨ b.status ≠ "pending") →
      (b.id == bookingId && b.doctor_id == doctorId && b.status == "pending") = false := by
    intro b hbad
    rcases hbad with h | h | h <;> simp [beq_eq_false_iff_ne, h]
  refine ⟨?_, ?_, ?_, ?_⟩
  · intro b hb hbad
    constructor
    · exact List.mem_map.mpr ⟨b, hb, by rw [if_neg (by simp [hcond b hbad])]⟩
    · exact List.mem_map.mpr ⟨b, hb, by rw [if_neg (by simp [hcond b hbad])]⟩
  · intro b hb h1 h2 h3
    constructor
    · exact List.mem_map.mpr ⟨b, hb, by rw [if_pos (by simp [h1, h2, h3])]⟩
    · exact List.mem_map.mpr ⟨b, hb, by rw [if_pos (by simp [h1, h2, h3])]⟩
  · intro x hx
    obtain ⟨b, hb, hxb⟩ := List.mem_map.mp hx
    by_cases hc : (b.id == bookingId && b.doctor_id == doctorId && b.status == "pending") = true
    · rw [if_pos hc] at hxb
      rw [Bool.and_eq_true, Bool.and_eq_true, beq_iff_eq, beq_iff_eq, beq_iff_eq] at hc
      subst hxb
      exact ⟨b, hb, rfl, rfl, rfl, rfl, rfl, rfl, rfl, rfl, rfl, rfl,
        Or.inr ⟨rfl, rfl, hc.2, hc.1.1, hc.1.2⟩⟩
    · rw [if_neg hc] at hxb
      subst hxb
      exact ⟨b, hb, rfl, rfl, rfl, rfl, rfl, rfl, rfl, rfl, rfl, rfl, Or.inl rfl⟩
  · intro x hx
    obtain ⟨b, hb, hxb⟩ := List.mem_map.mp hx
    by_cases hc : (b.id == bookingId && b.doctor_id == doctorId && b.status == "pending") = true
    · rw [if_pos hc] at hxb
      rw [Bool.and_eq_true, Bool.and_eq_true, beq_iff_eq, beq_iff_eq, beq_iff_eq] at hc
      subst hxb
      exact ⟨b, hb, rfl, rfl, rfl, rfl, rfl, rfl, rfl, rfl, rfl, rfl,
        Or.inr ⟨rfl, rfl, hc.2, hc.1.1, hc.1.2⟩⟩
    · rw [if_neg hc] at hxb
      subst hxb
      exact ⟨b, hb, rfl, rfl, rfl, rfl, rfl, rfl, rfl, rfl, rfl, rfl, Or.inl rfl⟩

/-- Witness for C9: the doctor approves their own pending booking; the
confirmed copy (status and updated_at changed, all else equal) is in the
updated table. -/
theorem C9_doctor_decision_witness :
    ({ id := "b1", user_id := "u1", doctor_id := "d1", appointment_date := "2026-10-20",
       appointment_time := "09:00", status := "confirmed", payment_status := "pending",
       consultation_fee := 100, booking_fee := 1000, total_amount := 1000,
       patient_notes := "", updated_at := "t9" } : BookingRow) ∈
      approveBooking demoBookings "d1" "b1" "t9" := by
  have h := C9_doctor_decision demoBookings "d1" "b1" "t9"
  exact (h.2.1
    { id := "b1", user_id := "u1", doctor_id := "d1", appointment_date := "2026-10-20",
      appointment_time := "09:00", status := "pending", payment_status := "pending",
      consultation_fee := 100, booking_fee := 1000, total_amount := 1000,
      patient_notes := "", updated_at := "t0" } (by decide) rfl rfl rfl).1

/-! ## Schedule persistence lemmas -/

theorem dayRows_nil {doctorId : String} {d : Nat} {st : DayState}
    (h : List.insertionSort strLe st.selected = []) : dayRows doctorId d st = [] := by
  unfold dayRows
  rw [h]

theorem dayRows_cons {doctorId : String} {d : Nat} {st : DayState} {t : String}
    {ts : List String} (h : List.insertionSort strLe st.selected = t :: ts) :
    dayRows doctorId d st =
      if toMinutes (toHHMM (toMinutes ((t :: ts).getLast (List.cons_ne_nil t ts)) + 30)) >
          toMinutes t then
        [{ doctor_id := doctorId, day_of_week := d, start_time := t,
           end_time := toHHMM (toMinutes ((t :: ts).getLast (List.cons_ne_nil t ts)) + 30),
           is_available := true }]
      else [] := by
  unfold dayRows
  rw [h]

theorem dayRows_fields {doctorId : String} {d : Nat} {st : DayState} :
    ∀ r ∈ dayRows doctorId d st, r.doctor_id = doctorId ∧ r.day_of_week = d := by
  intro r
  cases hs : List.insertionSort strLe st.selected with
  | nil =>
    rw [dayRows_nil hs]
    intro hr
    exact absurd hr (List.not_mem_nil r)
  | cons t ts =>
    rw [dayRows_cons hs]
    by_cases hg : toMinutes (toHHMM (toMinutes ((t :: ts).getLast (List.cons_ne_nil t ts))
        + 30)) > toMinutes t
    · rw [if_pos hg]
      intro hr
      rw [List.mem_singleton.mp hr]
      exact ⟨rfl, rfl⟩
    · rw [if_neg hg]
      intro hr
      exact absurd hr (List.not_mem_nil r)

theorem dayRows_start_ne_end {doctorId : String} {d : Nat} {st : DayState} :
    ∀ r ∈ dayRows doctorId d st, r.start_time ≠ r.end_time := by
  intro r
  cases hs : List.insertionSort strLe st.selected with
  | nil =>
    rw [dayRows_nil hs]
    intro hr
    exact absurd hr (List.not_mem_nil r)
  | cons t ts =>
    rw [dayRows_cons hs]
    by_cases hg : toMinutes (toHHMM (toMinutes ((t :: ts).getLast (List.cons_ne_nil t ts))
        + 30)) > toMinutes t
    · rw [if_pos hg]
      intro hr
      rw [List.mem_singleton.mp hr]
      intro heq
      have : toMinutes t =
          toMinutes (toHHMM (toMinutes ((t :: ts).getLast (List.cons_ne_nil t ts)) + 30)) :=
        congrArg toMinutes heq
      omega
    · rw [if_neg hg]
      intro hr
      exact absurd hr (List.not_mem_nil r)

theorem dayRows_short {doctorId : String} {d : Nat} {st : DayState} :
    dayRows doctorId d st = [] ∨ ∃ r, dayRows doctorId d st = [r] := by
  cases hs : List.insertionSort strLe st.selected with
  | nil => exact Or.inl (dayRows_nil hs)
  | cons t ts =>
    rw [dayRows_cons hs]
    by_cases hg : toMinutes (toHHMM (toMinutes ((t :: ts).getLast (List.cons_ne_nil t ts))
        + 30)) > toMinutes t
    · rw [if_pos hg]
      exact Or.inr ⟨_, rfl⟩
    · rw [if_neg hg]
      exact Or.inl rfl

/-- The rows of one save, indexed by one weekday. -/
def dayRowsOf (doctorId : String) (dayStates : Nat → Option DayState) (d : Nat) :
    List ScheduleRow :=
  match dayStates d with
  | none => []
  | some st => dayRows doctorId d st

theorem dayRowsOf_fields {doctorId : String} {dayStates : Nat → Option DayState} {d : Nat} :
    ∀ r ∈ dayRowsOf doctorId dayStates d, r.doctor_id = doctorId ∧ r.day_of_week = d := by
  intro r hr
  unfold dayRowsOf at hr
  cases hds : dayStates d with
  | none => rw [hds] at hr; exact absurd hr (List.not_mem_nil r)
  | some st => rw [hds] at hr; exact dayRows_fields r hr

theorem saveScheduleRows_eq (doctorId : String) (dayStates : Nat → Option DayState) :
    saveScheduleRows doctorId dayStates =
      (List.range 7).flatMap (dayRowsOf doctorId dayStates) := rfl

theorem filter_flatMap_tag (g : Nat → List ScheduleRow)
    (hg : ∀ d' r, r ∈ g d' → r.day_of_week = d') :
    ∀ n d : Nat, d < n →
      ((List.range n).flatMap g).filter (fun r => r.day_of_week == d) = g d := by
  intro n
  induction n with
  | zero => intro d hd; omega
  | succ n ih =>
    intro d hd
    rw [List.range_succ, List.flatMap_append, List.filter_append]
    have hsing : List.flatMap [n] g = g n := by simp
    rw [hsing]
    by_cases hdn : d = n
    · subst hdn
      have h1 : ((List.range d).flatMap g).filter (fun r => r.day_of_week == d) = [] := by
        rw [List.filter_eq_nil_iff]
        intro r hr
        obtain ⟨d', hd', hrd'⟩ := List.mem_flatMap.mp hr
        have := hg d' r hrd'
        have hlt : d' < d := List.mem_range.mp hd'
        simp only [beq_iff_eq, this]
        omega
      have h2 : (g d).filter (fun r => r.day_of_week == d) = g d := by
        rw [List.filter_eq_self]
        intro r hr
        simp [hg d r hr]
      rw [h1, h2, List.nil_append]
    · have hlt : d < n := by omega
      have h2 : (g n).filter (fun r => r.day_of_week == d) = [] := by
        rw [List.filter_eq_nil_iff]
        intro r hr
        simp only [beq_iff_eq, hg n r hr]
        omega
      rw [ih d hlt, h2, List.append_nil]

/-- Sorted lists have a maximal last element. -/
theorem sorted_strLe_le_getLast :
    ∀ (l : List String) (_ : l.Pairwise strLe) (x : String) (_ : x ∈ l) (hne : l ≠ []),
      strLe x (l.getLast hne)
  | [], _, x, hx, hne => absurd hx (List.not_mem_nil x)
  | [a], _, x, hx, _ => by
    rw [List.mem_singleton.mp hx]
    exact strLe_refl a
  | a :: b :: l, hp, x, hx, _ => by
    have hp' := List.pairwise_cons.mp hp
    rw [List.getLast_cons (List.cons_ne_nil b l)]
    rcases List.mem_cons.mp hx with rfl | hx'
    · exact strLe_trans' _ _ _
        (hp'.1 _ (List.getLast_mem (List.cons_ne_nil b l)))
        (sorted_strLe_le_getLast (b :: l) hp'.2 _
          (List.getLast_mem (List.cons_ne_nil b l)) (List.cons_ne_nil b l))
    · exact sorted_strLe_le_getLast (b :: l) hp'.2 x hx' (List.cons_ne_nil b l)

/-- Sorted lists have a minimal head. -/
theorem sorted_strLe_head_le {t : String} {ts : List String}
    (hp : (t :: ts).Pairwise strLe) : ∀ x ∈ t :: ts, strLe t x := by
  intro x hx
  rcases List.mem_cons.mp hx with rfl | hx'
  · exact strLe_refl x
  · exact (List.pairwise_cons.mp hp).1 x hx'

/-- C4: a weekday with a non-empty selection produces exactly one window
`[min(selection), max(selection)+30min)` with `is_available = true`; an
empty selection produces no row; a degenerate window with `start_time =
end_time` is never produced. -/
theorem C4_schedule_window (doctorId : String) (dayStates : Nat → Option DayState) (d : Nat)
    (hd : d < 7) (state : DayState) (hst : dayStates d = some state) (mins : List Nat)
    (hsel : state.selected = mins.map toHHMM) (hwf : ∀ m ∈ mins, m < 1440) :
    (mins = [] →
      (saveScheduleRows doctorId dayStates).filter (fun r => r.day_of_week == d) = [])
    ∧ (∀ a b, a ∈ mins → b ∈ mins → (∀ m ∈ mins, a ≤ m) → (∀ m ∈ mins, m ≤ b) →
      (saveScheduleRows doctorId dayStates).filter (fun r => r.day_of_week == d) =
        [{ doctor_id := doctorId, day_of_week := d, start_time := toHHMM a,
           end_time := toHHMM (b + 30), is_available := true }])
    ∧ (∀ r ∈ saveScheduleRows doctorId dayStates, r.start_time ≠ r.end_time) := by
  have hfilter : (saveScheduleRows doctorId dayStates).filter
      (fun r => r.day_of_week == d) = dayRowsOf doctorId dayStates d := by
    rw [saveScheduleRows_eq]
    exact filter_flatMap_tag (dayRowsOf doctorId dayStates)
      (fun d' r hr => (dayRowsOf_fields r hr).2) 7 d hd
  have hof : dayRowsOf doctorId dayStates d = dayRows doctorId d state := by
    unfold dayRowsOf
    rw [hst]
  refine ⟨?_, ?_, ?_⟩
  · intro hnil
    rw [hfilter, hof]
    exact dayRows_nil (by rw [hsel, hnil]; rfl)
  · intro a b ha hb hamin hbmax
    rw [hfilter, hof]
    have hsorted : (List.insertionSort strLe state.selected).Pairwise strLe :=
      List.sorted_insertionSort strLe state.selected
    have hperm : (List.insertionSort strLe state.selected).Perm state.selected :=
      List.perm_insertionSort strLe state.selected
    obtain ⟨t, ts, hcons⟩ : ∃ t ts, List.insertionSort strLe state.selected = t :: ts := by
      cases hs : List.insertionSort strLe state.selected with
      | nil =>
        have : toHHMM a ∈ ([] : List String) := by
          rw [← hs]
          exact hperm.mem_iff.mpr (hsel ▸ List.mem_map.mpr ⟨a, ha, rfl⟩)
        exact absurd this (List.not_mem_nil _)
      | cons t ts => exact ⟨t, ts, rfl⟩
    rw [hcons] at hsorted hperm
    have hmem_iff : ∀ x : String, x ∈ t :: ts ↔ ∃ m ∈ mins, toHHMM m = x := by
      intro x
      rw [hperm.mem_iff, hsel]
      simp [List.mem_map]
    -- the head is toHHMM a
    have hhead : t = toHHMM a := by
      obtain ⟨m₀, hm₀, hm₀t⟩ := (hmem_iff t).mp (List.mem_cons_self t ts)
      have hta : strLe t (toHHMM a) :=
        sorted_strLe_head_le hsorted _ ((hmem_iff (toHHMM a)).mpr ⟨a, ha, rfl⟩)
      rw [← hm₀t] at hta
      have hm₀a : m₀ ≤ a :=
        (toHHMM_le_iff (by have := hwf m₀ hm₀; omega) (by have := hwf a ha; omega)).mp hta
      have ham₀ : a ≤ m₀ := hamin m₀ hm₀
      rw [← hm₀t]
      congr 1
      omega
    -- the last is toHHMM b
    have hlast : (t :: ts).getLast (List.cons_ne_nil t ts) = toHHMM b := by
      set lst := (t :: ts).getLast (List.cons_ne_nil t ts) with hlst
      obtain ⟨m₁, hm₁, hm₁t⟩ := (hmem_iff lst).mp (List.getLast_mem (List.cons_ne_nil t ts))
      have hbl : strLe (toHHMM b) lst :=
        sorted_strLe_le_getLast (t :: ts) hsorted _
          ((hmem_iff (toHHMM b)).mpr ⟨b, hb, rfl⟩) (List.cons_ne_nil t ts)
      rw [← hm₁t] at hbl
      have hbm₁ : b ≤ m₁ :=
        (toHHMM_le_iff (by have := hwf b hb; omega) (by have := hwf m₁ hm₁; omega)).mp hbl
      have hm₁b : m₁ ≤ b := hbmax m₁ hm₁
      rw [← hm₁t]
      congr 1
      omega
    rw [dayRows_cons hcons, hlast, hhead]
    have hrt_b : toMinutes (toHHMM b) = b := toMinutes_toHHMM b (by have := hwf b hb; omega)
    have hrt_b30 : toMinutes (toHHMM (b + 30)) = b + 30 :=
      toMinutes_toHHMM (b + 30) (by have := hwf b hb; omega)
    have hrt_a : toMinutes (toHHMM a) = a := toMinutes_toHHMM a (by have := hwf a ha; omega)
    rw [hrt_b]
    rw [if_pos (by rw [hrt_b30, hrt_a]; have := hamin b hb; omega)]
  · intro r hr
    rw [saveScheduleRows_eq] at hr
    obtain ⟨d', hd', hrd'⟩ := List.mem_flatMap.mp hr
    unfold dayRowsOf at hrd'
    cases hds : dayStates d' with
    | none => rw [hds] at hrd'; exact absurd hrd' (List.not_mem_nil r)
    | some st => rw [hds] at hrd'; exact dayRows_start_ne_end r hrd'

/-- Witness for C4: the Monday selection {08:30, 08:00, 09:30, 09:00}
persists as the single window 08:00–10:00. -/
theorem C4_schedule_window_witness :
    (saveScheduleRows "d1" demoDayStates).filter (fun r => r.day_of_week == 1) =
      [{ doctor_id := "d1", day_of_week := 1, start_time := "08:00", end_time := "10:00",
         is_available := true }] := by
  have h := C4_schedule_window "d1" demoDayStates 1 (by decide)
    { openTime := "08:00", closeTime := "17:00",
      selected := ["08:30", "08:00", "09:30", "09:00"] }
    rfl [510, 480, 570, 540] (by decide) (by decide)
  have h2 := h.2.1 480 570 (by decide) (by decide) (by decide) (by decide)
  rw [h2]
  decide

theorem pairwise_flatMap_tag (g : Nat → List ScheduleRow)
    (hg : ∀ d' r, r ∈ g d' → r.day_of_week = d')
    (hshort : ∀ d', g d' = [] ∨ ∃ r, g d' = [r]) :
    ∀ n : Nat, ((List.range n).flatMap g).Pairwise
      (fun a b => a.day_of_week ≠ b.day_of_week) := by
  intro n
  induction n with
  | zero => exact List.Pairwise.nil
  | succ n ih =>
    rw [List.range_succ, List.flatMap_append]
    rw [List.pairwise_append]
    refine ⟨ih, ?_, ?_⟩
    · have hsing : List.flatMap [n] g = g n := by simp
      rw [hsing]
      rcases hshort n with h | ⟨r, h⟩
      · rw [h]; exact List.Pairwise.nil
      · rw [h]; exact List.pairwise_singleton _ r
    · intro a ha b hb
      obtain ⟨d', hd', had'⟩ := List.mem_flatMap.mp ha
      have hda : a.day_of_week = d' := hg d' a had'
      have hlt : d' < n := List.mem_range.mp hd'
      have hsing : List.flatMap [n] g = g n := by simp
      rw [hsing] at hb
      have hdb : b.day_of_week = n := hg n b hb
      omega

theorem saveScheduleRows_pairwise_day (doctorId : String)
    (dayStates : Nat → Option DayState) :
    (saveScheduleRows doctorId dayStates).Pairwise
      (fun a b => a.day_of_week ≠ b.day_of_week) := by
  rw [saveScheduleRows_eq]
  apply pairwise_flatMap_tag
  · intro d' r hr
    exact (dayRowsOf_fields r hr).2
  · intro d'
    unfold dayRowsOf
    cases dayStates d' with
    | none => exact Or.inl rfl
    | some st => exact dayRows_short

theorem upsertRow_of_no_conflict {store : List ScheduleRow} {r : ScheduleRow}
    (h : ∀ x ∈ store, ¬(x.doctor_id = r.doctor_id ∧ x.day_of_week = r.day_of_week)) :
    upsertRow store r = store ++ [r] := by
  unfold upsertRow
  rw [if_neg]
  intro hc
  obtain ⟨x, hx, hxc⟩ := List.any_eq_true.mp hc
  rw [Bool.and_eq_true, beq_iff_eq, beq_iff_eq] at hxc
  exact h x hx hxc

theorem foldl_upsert_append : ∀ (rows base : List ScheduleRow),
    (∀ r ∈ rows, ∀ x ∈ base, ¬(x.doctor_id = r.doctor_id ∧ x.day_of_week = r.day_of_week)) →
    rows.Pairwise (fun a b => ¬(a.doctor_id = b.doctor_id ∧ a.day_of_week = b.day_of_week)) →
    rows.foldl upsertRow base = base ++ rows := by
  intro rows
  induction rows with
  | nil => intro base _ _; simp
  | cons r rest ih =>
    intro base hb hp
    rw [List.foldl_cons, upsertRow_of_no_conflict (hb r (List.mem_cons_self r rest))]
    rw [ih (base ++ [r]) ?_ (List.pairwise_cons.mp hp).2]
    · rw [List.append_assoc]
      rfl
    · intro r' hr' x hx
      rcases List.mem_append.mp hx with hx' | hx'
      · exact hb r' (List.mem_cons_of_mem r hr') x hx'
      · rw [List.mem_singleton.mp hx']
        exact (List.pairwise_cons.mp hp).1 r' hr'

/-- C5: `saveSchedule` is a full replace scoped to the doctor: afterwards
the doctor's schedule rows are exactly the newly computed set (no prior
row remains), and other doctors' rows are untouched. -/
theorem C5_full_replace (store : List ScheduleRow) (doctorId : String)
    (dayStates : Nat → Option DayState) :
    ((saveSchedule store doctorId dayStates).filter (fun r => r.doctor_id == doctorId) =
      saveScheduleRows doctorId dayStates)
    ∧ ((saveSchedule store doctorId dayStates).filter (fun r => !(r.doctor_id == doctorId)) =
      store.filter (fun r => !(r.doctor_id == doctorId))) := by
  have hrows_doc : ∀ r ∈ saveScheduleRows doctorId dayStates, r.doctor_id = doctorId := by
    intro r hr
    rw [saveScheduleRows_eq] at hr
    obtain ⟨d', hd', hrd'⟩ := List.mem_flatMap.mp hr
    exact (dayRowsOf_fields r hrd').1
  have hbase : ∀ x ∈ store.filter (fun r => !(r.doctor_id == doctorId)),
      x.doctor_id ≠ doctorId := by
    intro x hx
    have h := (List.mem_filter.mp hx).2
    simpa using h
  have hsave : saveSchedule store doctorId dayStates =
      store.filter (fun r => !(r.doctor_id == doctorId)) ++
        saveScheduleRows doctorId dayStates := by
    unfold saveSchedule
    apply foldl_upsert_append
    · intro r hr x hx hk
      exact hbase x hx (hk.1.trans (hrows_doc r hr))
    · apply (saveScheduleRows_pairwise_day doctorId dayStates).imp
      intro a b hab hk
      exact hab hk.2
  constructor
  · rw [hsave, List.filter_append]
    have h1 : (store.filter (fun r => !(r.doctor_id == doctorId))).filter
        (fun r => r.doctor_id == doctorId) = [] := by
      rw [List.filter_eq_nil_iff]
      intro r hr
      simp [hbase r hr]
    have h2 : (saveScheduleRows doctorId dayStates).filter
        (fun r => r.doctor_id == doctorId) = saveScheduleRows doctorId dayStates := by
      rw [List.filter_eq_self]
      intro r hr
      simp [hrows_doc r hr]
    rw [h1, h2, List.nil_append]
  · rw [hsave, List.filter_append]
    have h1 : (store.filter (fun r => !(r.doctor_id == doctorId))).filter
        (fun r => !(r.doctor_id == doctorId)) =
        store.filter (fun r => !(r.doctor_id == doctorId)) := by
      rw [List.filter_eq_self]
      intro r hr
      exact (List.mem_filter.mp hr).2
    have h2 : (saveScheduleRows doctorId dayStates).filter
        (fun r => !(r.doctor_id == doctorId)) = [] := by
      rw [List.filter_eq_nil_iff]
      intro r hr
      simp [hrows_doc r hr]
    rw [h1, h2, List.append_nil]

end CarePath
